import Mathlib

/-!
# bsky-feed-generator: feed page assembly and event ingestion

A shallow embedding of

* `feedgen/pkg/feeds/dynamic/feed.go` (`DynamicFeed.GetPage`),
* `feedgen/pkg/stream/subscriber.go` (`subscriber.handleCommit`, the session
  refresh of `NewSubscriber`, `subscriber.refreshTokens`),
* `feedgen/pkg/db/db.go` (`AddLike`, `AddRepost`, `DeleteLike`, `DeleteRepost`,
  `MostRecentWithCursor`, `MostPopularWithCursor`),
* `service/pkg/stream/handlers.go` (`subscriber.handleCreatePost` and the
  handlers of likes, reposts and deletions),
* `service/pkg/stream/actions.go` (`subscriber.classify`),

together with the properties stated about them.

Conventions.  Go `int64` values are Lean `Int`s kept in range by `wrapInt64`
at every arithmetic step that can leave the range.  A Go `error` is an
`Option E` (`none` is `nil`).  A nil slice and an empty slice are both `[]`.
Collaborators reached through an interface or a function value (the storage
function, the classifier, the store, the HTTP client) are parameters that
thread an explicit world state `σ`, so that every call they receive can be
observed.  The store of `db.go` is the list of rows of each of its three
tables, and what the database driver reports at each step is a parameter.  A
run-time panic is an outcome of its own.  Calls to the logger have no influence
on any result and are left out.
-/

namespace FeedGen

deriving instance DecidableEq for Except

/-! ## Machine integers -/

/-- Two's-complement reduction of an integer to the `int64` range. -/
def wrapInt64 (x : Int) : Int := (x + 2 ^ 63) % 2 ^ 64 - 2 ^ 63

/-- Largest `int64`. -/
def maxInt64 : Int := 2 ^ 63 - 1

/-- Smallest `int64`. -/
def minInt64 : Int := -(2 ^ 63)

/-- Largest `uint64`. -/
def maxUint64 : Nat := 2 ^ 64 - 1

/-! ## `strconv` (Go standard library), base 10 and bit size 64 -/

/-- The two error kinds of `strconv.NumError`. -/
inductive NumError where
  | ErrSyntax
  | ErrRange
  deriving DecidableEq, Repr

/-- The digit loop of `strconv.ParseUint(s, 10, 64)`: `n` is the value read so
far.  A byte that is not a decimal digit is a syntax error (for base 10 a letter
is a digit value `>= base`, any other byte hits the `default` case; an
underscore is only skipped for base 0).  `cutoff` is `maxUint64/10 + 1`; the
sum `n*10 + d` is taken in `uint64`. -/
def parseUintLoop : List Char → Nat → Except NumError Nat
  | [], n => .ok n
  | c :: cs, n =>
    if '0'.toNat ≤ c.toNat ∧ c.toNat ≤ '9'.toNat then
      let d := c.toNat - '0'.toNat
      if n ≥ maxUint64 / 10 + 1 then .error .ErrRange
      else
        let n10 := n * 10
        let n1 := (n10 + d) % 2 ^ 64
        if n1 < n10 ∨ n1 > maxUint64 then .error .ErrRange
        else parseUintLoop cs n1
    else .error .ErrSyntax

/-- Go `strconv.ParseUint(s, 10, 64)` on the characters of `s`. -/
def ParseUint (s : List Char) : Except NumError Nat :=
  if s = [] then .error .ErrSyntax else parseUintLoop s 0

/-- The range check and sign application at the end of `strconv.ParseInt`, on
the outcome of `ParseUint`.  A range error of `ParseUint` is not returned at
once: Go goes on with `un = maxUint64`, which fails the range check as well. -/
def parseIntFinish (neg : Bool) : Except NumError Nat → Except NumError Int
  | .error .ErrSyntax => .error .ErrSyntax
  | .error .ErrRange => .error .ErrRange
  | .ok un =>
    if !neg ∧ un ≥ 2 ^ 63 then .error .ErrRange
    else if neg ∧ un > 2 ^ 63 then .error .ErrRange
    else
      let n := wrapInt64 (un : Int)
      .ok (if neg then wrapInt64 (-n) else n)

/-- Go `strconv.ParseInt(s, 10, 64)`: an optional sign, then `ParseUint`. -/
def ParseInt (s : String) : Except NumError Int :=
  match s.data with
  | [] => .error .ErrSyntax
  | c :: rest =>
    if c = '+' then parseIntFinish false (ParseUint rest)
    else if c = '-' then parseIntFinish true (ParseUint rest)
    else parseIntFinish false (ParseUint (c :: rest))

/-- Go `strconv.FormatInt(i, 10)`: the decimal digits of `|i|`, most
significant first, after a `-` when `i` is negative. -/
def FormatInt (i : Int) : String :=
  if i < 0 then String.mk ('-' :: Nat.toDigits 10 (-i).toNat)
  else String.mk (Nat.toDigits 10 i.toNat)

/-! ## `DynamicFeed.GetPage` -/

/-- Go `appbsky.FeedDefs_SkeletonFeedPost`, of which `GetPage` sets `Post`. -/
structure SkeletonFeedPost where
  Post : String
  deriving DecidableEq, Repr

/-- The storage function `df.dbFunc`, called as `dbFunc limit cursor` on the
world state `σ`; it returns the URIs or an error, and the next world state. -/
abbrev DbFunc (σ E : Type) := Int → Int → σ → Except E (List String) × σ

/-- The two errors `GetPage` returns: the cursor that does not parse, and the
wrapped error of the storage function (with the clamped limit it reports). -/
inductive GetPageError (E : Type) where
  | cursorNotInteger (e : NumError)
  | dbError (limit : Int) (e : E)
  deriving DecidableEq, Repr

/-- The three results of `GetPage`. -/
structure GetPageResult (E : Type) where
  posts : List SkeletonFeedPost
  newCursor : Option String
  err : Option (GetPageError E)
  deriving DecidableEq, Repr

/-- The loop `for _, postURI := range tmr` of `GetPage`: `posts` is the slice
built so far; the loop breaks as soon as `int64(len(posts)) >= limit` (a slice
length fits in `int64`, so the conversion is exact). -/
def collectPosts (limit : Int) : List String → List SkeletonFeedPost → List SkeletonFeedPost
  | [], posts => posts
  | postURI :: rest, posts =>
    if (posts.length : Int) ≥ limit then posts
    else collectPosts limit rest (posts ++ [{ Post := postURI }])

/-- Lines 41 to 50 of `GetPage`: `cursorAsInt` is 0 for the empty cursor and
the result of `strconv.ParseInt(cursor, 10, 64)` otherwise. -/
def parseCursor (cursor : String) : Except NumError Int :=
  if cursor ≠ "" then ParseInt cursor else .ok 0

/-- Go `DynamicFeed.GetPage` (the arguments `ctx`, `feed` and `userDID` are not
used by the body).  Returns the three results and the world state left by the
calls to `dbFunc`. -/
def GetPage {σ E : Type} (dbFunc : DbFunc σ E) (limit : Int) (cursor : String) (w : σ) :
    GetPageResult E × σ :=
  let limit := if limit > 30 then 30 else limit
  match parseCursor cursor with
  | .error e => ({ posts := [], newCursor := none, err := some (.cursorNotInteger e) }, w)
  | .ok cursorAsInt =>
    match dbFunc limit cursorAsInt w with
    | (.error e, w1) => ({ posts := [], newCursor := none, err := some (.dbError limit e) }, w1)
    | (.ok tmr, w1) =>
      let posts := collectPosts limit tmr []
      let cursorAsInt := wrapInt64 (cursorAsInt + (posts.length : Int))
      let newCursor := if cursorAsInt < 210 then some (FormatInt cursorAsInt) else none
      ({ posts := posts, newCursor := newCursor, err := none }, w1)

/-- The URIs of a page, in order. -/
def uris (posts : List SkeletonFeedPost) : List String := posts.map (fun p => p.Post)

/-- The sentence "`page` is the longest prefix of `result` that has at most `L`
entries": a prefix within the bound that no prefix within the bound exceeds. -/
def IsLongestPrefixWithin (page result : List String) (L : Int) : Prop :=
  page <+: result ∧ (page.length : Int) ≤ L ∧
    ∀ q : List String, q <+: result → (q.length : Int) ≤ L → q.length ≤ page.length

/-! ### Observing the calls to the storage function -/

/-- A storage function that does not depend on the world and records each of
its calls, in order, as the pair `(limit, offset)` it was given. -/
def recording {E : Type} (f : Int → Int → Except E (List String)) : DbFunc (List (Int × Int)) E :=
  fun limit offset calls => (f limit offset, calls ++ [(limit, offset)])

/-! ## `subscriber.handleCommit` -/

/-- The fields of the jetstream `models.Commit` that the subscriber reads;
`Record` is the raw JSON of the record. -/
structure Commit where
  Operation : String
  Collection : String
  RKey : String
  Record : String
  deriving DecidableEq, Repr

/-- The fields of the jetstream `models.Event` that the subscriber reads; a nil
`Commit` pointer is `none`. -/
structure Event where
  Did : String
  Commit : Option Commit
  deriving DecidableEq, Repr

/-- The jetstream constant `models.CommitOperationCreate`. -/
def CommitOperationCreate : String := "create"

/-- The jetstream constant `models.CommitOperationDelete`. -/
def CommitOperationDelete : String := "delete"

/-- The collection of posts. -/
def CollectionKindFeedPost : String := "app.bsky.feed.post"

/-- The collection of reposts. -/
def CollectionKindFeedRepost : String := "app.bsky.feed.repost"

/-- The collection of likes. -/
def CollectionKindFeedLike : String := "app.bsky.feed.like"

/-- One of the methods `handleCreatePost`, ..., `handleDeleteRepost`: it takes
the event and the world, and returns its `error` and the world it leaves. -/
abbrev Handler (σ E : Type) := Event → σ → Option E × σ

/-- The six handlers `handleCommit` dispatches to. -/
structure Handlers (σ E : Type) where
  handleCreatePost : Handler σ E
  handleCreateLike : Handler σ E
  handleCreateRepost : Handler σ E
  handleDeletePost : Handler σ E
  handleDeleteLike : Handler σ E
  handleDeleteRepost : Handler σ E

/-- The body of each `case` of `handleCommit`: `err := h(event)`, and `return
err` when it is not nil; otherwise control reaches the final `return nil`. -/
def runCase {σ E : Type} (h : Handler σ E) (event : Event) (w : σ) : Option E × σ :=
  match h event w with
  | (some err, w1) => (some err, w1)
  | (none, w1) => (none, w1)

/-- Go `subscriber.handleCommit`: the nil check, then the two nested switches. -/
def handleCommit {σ E : Type} (s : Handlers σ E) (event : Event) (w : σ) : Option E × σ :=
  match event.Commit with
  | none => (none, w)
  | some commit =>
    if commit.Operation = CommitOperationCreate then
      if commit.Collection = CollectionKindFeedPost then runCase s.handleCreatePost event w
      else if commit.Collection = CollectionKindFeedLike then runCase s.handleCreateLike event w
      else if commit.Collection = CollectionKindFeedRepost then runCase s.handleCreateRepost event w
      else (none, w)
    else if commit.Operation = CommitOperationDelete then
      if commit.Collection = CollectionKindFeedPost then runCase s.handleDeletePost event w
      else if commit.Collection = CollectionKindFeedLike then runCase s.handleDeleteLike event w
      else if commit.Collection = CollectionKindFeedRepost then runCase s.handleDeleteRepost event w
      else (none, w)
    else (none, w)

/-! ### The reference definition of the dispatch -/

/-- The six (operation, collection) combinations. -/
inductive HandlerKind where
  | createPost
  | createLike
  | createRepost
  | deletePost
  | deleteLike
  | deleteRepost
  deriving DecidableEq, Repr

/-- The handler of each combination. -/
def Handlers.get {σ E : Type} (s : Handlers σ E) : HandlerKind → Handler σ E
  | .createPost => s.handleCreatePost
  | .createLike => s.handleCreateLike
  | .createRepost => s.handleCreateRepost
  | .deletePost => s.handleDeletePost
  | .deleteLike => s.handleDeleteLike
  | .deleteRepost => s.handleDeleteRepost

/-- The dispatch table in the words of the specification: the six pairs
`{create, delete} x {app.bsky.feed.post, app.bsky.feed.like, app.bsky.feed.repost}`,
and nothing for any other pair. -/
def dispatchRef (operation collection : String) : Option HandlerKind :=
  if operation = "create" ∧ collection = "app.bsky.feed.post" then some .createPost
  else if operation = "create" ∧ collection = "app.bsky.feed.like" then some .createLike
  else if operation = "create" ∧ collection = "app.bsky.feed.repost" then some .createRepost
  else if operation = "delete" ∧ collection = "app.bsky.feed.post" then some .deletePost
  else if operation = "delete" ∧ collection = "app.bsky.feed.like" then some .deleteLike
  else if operation = "delete" ∧ collection = "app.bsky.feed.repost" then some .deleteRepost
  else none

/-- The reference definition of `handleCommit` in the words of the
specification: an event without a commit payload, or whose pair is none of the
six, gives nil and calls no handler; otherwise the one handler of the pair is
called, once, and its result is returned unchanged. -/
def handleCommitRef {σ E : Type} (s : Handlers σ E) (event : Event) (w : σ) : Option E × σ :=
  match event.Commit with
  | none => (none, w)
  | some commit =>
    match dispatchRef commit.Operation commit.Collection with
    | none => (none, w)
    | some kind => s.get kind event w

/-- Handlers that do not depend on the world and record, in order, which of
them was called; `result kind` is the error the handler of `kind` returns. -/
def recordingHandlers {E : Type} (result : HandlerKind → Option E) :
    Handlers (List HandlerKind) E where
  handleCreatePost := fun _ calls => (result .createPost, calls ++ [.createPost])
  handleCreateLike := fun _ calls => (result .createLike, calls ++ [.createLike])
  handleCreateRepost := fun _ calls => (result .createRepost, calls ++ [.createRepost])
  handleDeletePost := fun _ calls => (result .deletePost, calls ++ [.deletePost])
  handleDeleteLike := fun _ calls => (result .deleteLike, calls ++ [.deleteLike])
  handleDeleteRepost := fun _ calls => (result .deleteRepost, calls ++ [.deleteRepost])

/-! ## `subscriber.classify` and `subscriber.handleCreatePost` -/

/-- How a call of a handler ends: it returns its `error`, or it aborts with a
run-time panic, on an index out of range or on a nil pointer. -/
inductive Outcome (E : Type) where
  | returned (err : Option E)
  | indexOutOfRange (index length : Nat)
  | nilDereference
  deriving DecidableEq, Repr

/-- The part of `util.LexBlob` that `classify` reads: `Ref` is `Ref.String()`,
the string form of the blob reference. -/
structure LexBlob where
  Ref : String
  deriving DecidableEq, Repr

/-- The part of `appbsky.EmbedImages_Image` that `classify` reads: the blob
pointer `Image`, which is nil (`none`) for an entry of the record that comes
without its blob. -/
structure EmbedImages_Image where
  Image : Option LexBlob
  deriving DecidableEq, Repr

/-- Go `appbsky.EmbedImages`. -/
structure EmbedImages where
  Images : List EmbedImages_Image
  deriving DecidableEq, Repr

/-- The part of `appbsky.FeedPost_Embed` that the handler reads; a nil
`EmbedImages` pointer is `none`. -/
structure FeedPost_Embed where
  EmbedImages : Option EmbedImages
  deriving DecidableEq, Repr

/-- Go `appbsky.FeedPost_ReplyRef`: the references to the parent and to the
root of the thread. -/
structure FeedPost_ReplyRef where
  Parent : String
  Root : String
  deriving DecidableEq, Repr

/-- The part of `appbsky.FeedPost` that the handler reads; nil pointers are
`none`. -/
structure FeedPost where
  Reply : Option FeedPost_ReplyRef
  Embed : Option FeedPost_Embed
  deriving DecidableEq, Repr

/-- Go `classifyResponse`.  `Confidence` is a `float64` decoded from JSON, so a
finite one, and every finite `float64` is a rational number.  No `float64` lies
between `float64(0.85)` and `0.85`, so on such values the Go test
`Confidence > 0.85` and the comparison with the rational `0.85` agree. -/
structure classifyResponse where
  Confidence : ℚ
  Label : String
  deriving DecidableEq, Repr

/-- The zero value `classifyResponse{}`. -/
def classifyResponse.zero : classifyResponse := { Confidence := 0, Label := "" }

/-- The part of `http.Response` that `classify` reads. -/
structure HttpResponse (Body : Type) where
  StatusCode : Int
  Body : Body

/-- Go `http.StatusOK`. -/
def StatusOK : Int := 200

/-- What `classify` reaches outside the subscriber: the configured classifier
URL, `json.Marshal` of the request with the given image URL, `http.NewRequest`
(method, URL, body), `req.Header.Set` (key, value), `httpClient.Do` on the
world, the JSON decoder on the response body, and `resp.Body.Close`. -/
structure ClassifyEnv (σ E Req Body : Type) where
  classifierURL : String
  Marshal : String → Except E String
  NewRequest : String → String → String → Except E Req
  HeaderSet : Req → String → String → Req
  Do : Req → σ → Except E (HttpResponse Body) × σ
  Decode : Body → Except E classifyResponse
  Close : Body → Option E

/-- How a call of `classify` ends: it returns the pair `(classifyResponse,
error)`, or it aborts on the nil blob pointer of the image. -/
inductive ClassifyOutcome (E : Type) where
  | returned (response : classifyResponse) (err : Option E)
  | nilDereference
  deriving DecidableEq, Repr

/-- Go `subscriber.classify`, with the world left by the HTTP call.  The first
statement reads `img.Image.Ref`, which aborts on a nil blob pointer.  In the
branch `resp.StatusCode != http.StatusOK` the returned `err` is the variable
assigned by `httpClient.Do`, which is nil there. -/
def classify {σ E Req Body : Type} (env : ClassifyEnv σ E Req Body) (did : String)
    (img : EmbedImages_Image) (w : σ) : ClassifyOutcome E × σ :=
  match img.Image with
  | none => (.nilDereference, w)
  | some blob =>
    let imageURL :=
      "https://cdn.bsky.app/image/feed_fullsize/plain/" ++ did ++ "/" ++ blob.Ref ++ "@jpeg"
    match env.Marshal imageURL with
    | .error err => (.returned classifyResponse.zero (some err), w)
    | .ok jsonBody =>
      match env.NewRequest "POST" (env.classifierURL ++ "/selfie") jsonBody with
      | .error err => (.returned classifyResponse.zero (some err), w)
      | .ok req =>
        let req := env.HeaderSet req "Content-Type" "application/json"
        match env.Do req w with
        | (.error err, w1) => (.returned classifyResponse.zero (some err), w1)
        | (.ok resp, w1) =>
          let err : Option E := none
          if resp.StatusCode ≠ StatusOK then (.returned classifyResponse.zero err, w1)
          else
            match env.Decode resp.Body with
            | .error err => (.returned classifyResponse.zero (some err), w1)
            | .ok classifyResp =>
              match env.Close resp.Body with
              | some err => (.returned classifyResponse.zero (some err), w1)
              | none => (.returned classifyResp none, w1)

/-- What `handleCreatePost` reaches outside itself: `json.Unmarshal` of the
record into a `FeedPost`, the method `s.classify` on an image that has its blob
(what it does once the blob reference is read: the request to the classifier
and its answer), and the store method
`s.db.AddPotentialBirdPost(did, rkey, postURL)`. -/
structure PostEnv (σ E : Type) where
  Unmarshal : String → Except E FeedPost
  classify : String → EmbedImages_Image → σ → (classifyResponse × Option E) × σ
  AddPotentialBirdPost : String → String → String → σ → Option E × σ

/-- The acceptance test of `handleCreatePost`:
`response.Label == "bird" && response.Confidence > 0.85`. -/
def accepts (response : classifyResponse) : Prop :=
  response.Label = "bird" ∧ response.Confidence > 0.85

instance (response : classifyResponse) : Decidable (accepts response) :=
  inferInstanceAs (Decidable (response.Label = "bird" ∧ response.Confidence > 0.85))

/-- Go `fmt.Sprintf("https://bsky.app/profile/%s/post/%s", did, rkey)`. -/
def postURLOf (did rkey : String) : String :=
  "https://bsky.app/profile/" ++ did ++ "/post/" ++ rkey

/-- The loop `for _, img := range post.Embed.EmbedImages.Images` of
`handleCreatePost`, from the world `w`, followed by the final `return nil`.
The call `s.classify(event.Did, img)` aborts the handler on an image without
its blob, before any request is made; a classifier error and a store error
`continue` with the next image, a response that is not accepted falls through
to the next image, a stored post is the `break`. -/
def classifyImages {σ E : Type} (env : PostEnv σ E) (did rkey : String) :
    List EmbedImages_Image → σ → Outcome E × σ
  | [], w => (.returned none, w)
  | img :: rest, w =>
    match img.Image with
    | none => (.nilDereference, w)
    | some _ =>
      match env.classify did img w with
      | ((_, some _), w1) => classifyImages env did rkey rest w1
      | ((response, none), w1) =>
        if accepts response then
          match env.AddPotentialBirdPost did rkey (postURLOf did rkey) w1 with
          | (some _, w2) => classifyImages env did rkey rest w2
          | (none, w2) => (.returned none, w2)
        else classifyImages env did rkey rest w1

/-- Go `subscriber.handleCreatePost` on an event with repository `did` and the
commit payload `commit` (`handleCommit` only passes events that have one). -/
def handleCreatePost {σ E : Type} (env : PostEnv σ E) (did : String) (commit : Commit) (w : σ) :
    Outcome E × σ :=
  match env.Unmarshal commit.Record with
  | .error err => (.returned (some err), w)
  | .ok post =>
    let isParent := post.Reply.isNone
    match isParent, post.Embed with
    | true, some embed =>
      match embed.EmbedImages with
      | some images => classifyImages env did commit.RKey images.Images w
      | none => (.returned none, w)
    | _, _ => (.returned none, w)

/-- The images of a record: those of its image embed, none without one. -/
def FeedPost.images (post : FeedPost) : List EmbedImages_Image :=
  match post.Embed with
  | some embed =>
    match embed.EmbedImages with
    | some images => images.Images
    | none => []
  | none => []

/-- The record has an image embed: `post.Embed != nil && post.Embed.EmbedImages != nil`. -/
def FeedPost.hasImageEmbed (post : FeedPost) : Prop :=
  ∃ embed images, post.Embed = some embed ∧ embed.EmbedImages = some images

/-! ### Observing the calls to the classifier and to the store -/

/-- A call made by `handleCreatePost`, with what it returned. -/
inductive Call (E : Type) where
  | classified (did : String) (img : EmbedImages_Image) (response : classifyResponse)
      (err : Option E)
  | stored (did rkey postURL : String) (err : Option E)
  deriving DecidableEq, Repr

/-- The same collaborators on worlds that carry a log: every call to the
classifier and to the store is appended to the log with its result. -/
def observed {σ E : Type} (env : PostEnv σ E) : PostEnv (σ × List (Call E)) E where
  Unmarshal := env.Unmarshal
  classify := fun did img w =>
    ((env.classify did img w.1).1,
      ((env.classify did img w.1).2,
        w.2 ++ [Call.classified did img (env.classify did img w.1).1.1 (env.classify did img w.1).1.2]))
  AddPotentialBirdPost := fun did rkey postURL w =>
    ((env.AddPotentialBirdPost did rkey postURL w.1).1,
      ((env.AddPotentialBirdPost did rkey postURL w.1).2,
        w.2 ++ [Call.stored did rkey postURL (env.AddPotentialBirdPost did rkey postURL w.1).1]))

/-- The calls `handleCreatePost` makes from the world `w`, in order. -/
def callsOf {σ E : Type} (env : PostEnv σ E) (did : String) (commit : Commit) (w : σ) :
    List (Call E) :=
  (handleCreatePost (observed env) did commit (w, [])).2.2

/-- A call after which the loop goes on with the next image: a classification
that failed or was not accepted, or a store call that returned an error. -/
def Call.goesOn {E : Type} : Call E → Prop
  | .classified _ _ response err => err ≠ none ∨ ¬ accepts response
  | .stored _ _ _ err => err ≠ none

/-- The images submitted to the classifier in a log, in order. -/
def classifiedImages {E : Type} : List (Call E) → List EmbedImages_Image
  | [] => []
  | .classified _ img _ _ :: rest => img :: classifiedImages rest
  | .stored _ _ _ _ :: rest => classifiedImages rest

/-- The number of posts persisted in a log: store calls that returned nil. -/
def storedCount {E : Type} : List (Call E) → Nat
  | [] => 0
  | .stored _ _ _ none :: rest => storedCount rest + 1
  | _ :: rest => storedCount rest

/-- The logs the loop of `handleCreatePost` can leave over a list of images,
with the way the handler ends: each image is classified in turn; an image
without its blob aborts the handler before any call; a classifier error or a
response that is not accepted goes on with the rest; an accepted response is
followed by a store call, which ends the log when it succeeds and goes on with
the rest when it fails. -/
inductive LoopTrace {E : Type} (did rkey : String) :
    List EmbedImages_Image → List (Call E) → Outcome E → Prop where
  | done : LoopTrace did rkey [] [] (.returned none)
  | aborted (img : EmbedImages_Image) (rest : List EmbedImages_Image) :
      img.Image = none → LoopTrace did rkey (img :: rest) [] .nilDereference
  | classifyFailed (img : EmbedImages_Image) (rest : List EmbedImages_Image)
      (response : classifyResponse) (err : E) (t : List (Call E)) (o : Outcome E) :
      img.Image ≠ none → LoopTrace did rkey rest t o →
      LoopTrace did rkey (img :: rest) (Call.classified did img response (some err) :: t) o
  | rejected (img : EmbedImages_Image) (rest : List EmbedImages_Image)
      (response : classifyResponse) (t : List (Call E)) (o : Outcome E) :
      img.Image ≠ none → ¬ accepts response → LoopTrace did rkey rest t o →
      LoopTrace did rkey (img :: rest) (Call.classified did img response none :: t) o
  | storeFailed (img : EmbedImages_Image) (rest : List EmbedImages_Image)
      (response : classifyResponse) (err : E) (t : List (Call E)) (o : Outcome E) :
      img.Image ≠ none → accepts response → LoopTrace did rkey rest t o →
      LoopTrace did rkey (img :: rest)
        (Call.classified did img response none ::
          Call.stored did rkey (postURLOf did rkey) (some err) :: t) o
  | persisted (img : EmbedImages_Image) (rest : List EmbedImages_Image)
      (response : classifyResponse) :
      img.Image ≠ none → accepts response →
      LoopTrace did rkey (img :: rest)
        [Call.classified did img response none,
          Call.stored did rkey (postURLOf did rkey) none] (.returned none)

/-! ### Sample collaborators -/

/-- A record with no reply reference and two images. -/
def twoImagePost : FeedPost :=
  { Reply := none,
    Embed := some { EmbedImages := some { Images := [{ Image := some { Ref := "bafy-one" } },
                                                        { Image := some { Ref := "bafy-two" } }] } } }

/-- A reply that embeds the same two images. -/
def twoImageReply : FeedPost :=
  { Reply := some { Parent := "at://did:plc:abc/app.bsky.feed.post/r0",
                    Root := "at://did:plc:abc/app.bsky.feed.post/r0" },
    Embed := twoImagePost.Embed }

/-- A record with no reply reference and two images, the second without its
blob. -/
def blobLessPost : FeedPost :=
  { Reply := none,
    Embed := some { EmbedImages := some { Images := [{ Image := some { Ref := "bafy-one" } },
                                                        { Image := none }] } } }

/-- Collaborators on a world without content: the record "post" decodes to
`twoImagePost`, "reply" to `twoImageReply` and "blobless" to `blobLessPost`,
the classifier answers "bird" with confidence 0.9 for every image, and the
store returns `storeResult`. -/
def sampleEnv (storeResult : Option String) : PostEnv Unit String where
  Unmarshal := fun record =>
    if record = "post" then .ok twoImagePost
    else if record = "reply" then .ok twoImageReply
    else if record = "blobless" then .ok blobLessPost
    else .error "invalid character"
  classify := fun _ _ w => (({ Confidence := 9 / 10, Label := "bird" }, none), w)
  AddPotentialBirdPost := fun _ _ _ w => (storeResult, w)

/-- A create-post commit whose record is `record`. -/
def sampleCommit (record : String) : Commit :=
  { Operation := "create", Collection := "app.bsky.feed.post", RKey := "r1", Record := record }

/-- A classifier endpoint that answers every request with the HTTP status
`status` and the body `body`; the decoder reads the body "bird" as the label
"bird" with confidence 0.9 and rejects any other body. -/
def sampleClassifyEnv (status : Int) (body : String) : ClassifyEnv Unit String String String where
  classifierURL := "http://classifier.internal"
  Marshal := fun imageURL => .ok imageURL
  NewRequest := fun method url jsonBody => .ok (method ++ " " ++ url ++ " " ++ jsonBody)
  HeaderSet := fun req key value => req ++ " " ++ key ++ ": " ++ value
  Do := fun _ w => (.ok { StatusCode := status, Body := body }, w)
  Decode := fun b =>
    if b = "bird" then .ok { Confidence := 9 / 10, Label := "bird" }
    else .error "invalid character"
  Close := fun _ => none

/-! ## The session refresh of `NewSubscriber` -/

/-- The fields of `xrpc.AuthInfo` that the subscriber sets: the credential pair
shared through `xrpcClient.Auth`. -/
structure AuthInfo where
  AccessJwt : String
  RefreshJwt : String
  deriving DecidableEq, Repr

/-- The fields of `atproto.ServerRefreshSession_Output` that the subscriber reads. -/
structure ServerRefreshSession_Output where
  AccessJwt : String
  RefreshJwt : String
  deriving DecidableEq, Repr

/-- The call `atproto.ServerRefreshSession(ctx, xrpcClient)`: it sees the
credentials the client holds at the time of the call and the world. -/
abbrev RefreshCall (σ E : Type) := AuthInfo → σ → Except E ServerRefreshSession_Output × σ

/-- One tick of the refresh loop in `NewSubscriber`, the body of `case
<-ticker.C`, as one step on the shared credentials: the access token is
overwritten with the refresh token, the refresh call is made, and on success
both tokens are overwritten with the returned ones; on failure the loop
`continue`s. -/
def refreshTick {σ E : Type} (ServerRefreshSession : RefreshCall σ E) (auth : AuthInfo) (w : σ) :
    AuthInfo × σ :=
  let auth : AuthInfo := { auth with AccessJwt := auth.RefreshJwt }
  match ServerRefreshSession auth w with
  | (.error _, w1) => (auth, w1)
  | (.ok out, w1) => ({ AccessJwt := out.AccessJwt, RefreshJwt := out.RefreshJwt }, w1)

/-- Go `subscriber.refreshTokens`, the sibling of the loop body: it makes the
refresh call on the credentials as they are, returns the error on failure, and
replaces the credentials on success.  Returns the error, the credentials and
the world. -/
def refreshTokens {σ E : Type} (ServerRefreshSession : RefreshCall σ E) (auth : AuthInfo) (w : σ) :
    Option E × AuthInfo × σ :=
  match ServerRefreshSession auth w with
  | (.error err, w1) => (some err, auth, w1)
  | (.ok out, w1) => (none, { AccessJwt := out.AccessJwt, RefreshJwt := out.RefreshJwt }, w1)

/-! ## The store of `feedgen/pkg/db/db.go` -/

/-- A row of the table `post`: the columns `did`, `record`, `uri`, `indexed_at`. -/
structure PostRow where
  did : String
  record : String
  uri : String
  indexed_at : Nat
  deriving DecidableEq, Repr

/-- A row of the table `post_like` or `post_repost`: the columns `did`,
`record`, `post_rkey`, `indexed_at`. -/
structure EdgeRow where
  did : String
  record : String
  post_rkey : String
  indexed_at : Nat
  deriving DecidableEq, Repr

/-- The state of the store: the rows of the three tables. -/
structure Store where
  post : List PostRow
  post_like : List EdgeRow
  post_repost : List EdgeRow
  deriving DecidableEq, Repr

/-- What the driver reports at each step of a transaction or statement: `none`
when the step goes through, the error otherwise (a lost connection, a violated
constraint of the table, ...).  A step that reports an error changes no table. -/
structure Faults (E : Type) where
  Begin : Option E
  QueryRow : Option E
  Exec : Option E
  Commit : Option E
  Query : Option E
  Scan : Option E
  deriving DecidableEq, Repr

/-- A driver that reports no failure. -/
def Faults.none {E : Type} : Faults E :=
  { Begin := Option.none, QueryRow := Option.none, Exec := Option.none, Commit := Option.none,
    Query := Option.none, Scan := Option.none }

/-- The query `SELECT EXISTS(SELECT 1 FROM post WHERE record = $1)`. -/
def postExists (s : Store) (postRkey : String) : Bool :=
  s.post.any (fun p => p.record = postRkey)

/-- Go `dbPostgres.AddLike` of `feedgen/pkg/db/db.go`: begin a transaction, ask
whether the target post exists, return nil without inserting when it does not,
otherwise insert the row with `time.Now()` as `now` and commit.  Every error is
returned; the deferred `Rollback` undoes what an uncommitted transaction did. -/
def AddLike {E : Type} (f : Faults E) (now : Nat) (did rkey postRkey : String) (s : Store) :
    Option E × Store :=
  match f.Begin with
  | some err => (some err, s)
  | none =>
    match f.QueryRow with
    | some err => (some err, s)
    | none =>
      if !(postExists s postRkey) then (none, s)
      else
        match f.Exec with
        | some err => (some err, s)
        | none =>
          match f.Commit with
          | some err => (some err, s)
          | none =>
            (none, { s with post_like := s.post_like ++
              [{ did := did, record := rkey, post_rkey := postRkey, indexed_at := now }] })

/-- Go `dbPostgres.AddRepost`: as `AddLike`, on the table `post_repost`. -/
def AddRepost {E : Type} (f : Faults E) (now : Nat) (did rkey postRkey : String) (s : Store) :
    Option E × Store :=
  match f.Begin with
  | some err => (some err, s)
  | none =>
    match f.QueryRow with
    | some err => (some err, s)
    | none =>
      if !(postExists s postRkey) then (none, s)
      else
        match f.Exec with
        | some err => (some err, s)
        | none =>
          match f.Commit with
          | some err => (some err, s)
          | none =>
            (none, { s with post_repost := s.post_repost ++
              [{ did := did, record := rkey, post_rkey := postRkey, indexed_at := now }] })

/-- Go `dbPostgres.DeleteLike`: `DELETE FROM post_like WHERE record = $1`. -/
def DeleteLike {E : Type} (f : Faults E) (rkey : String) (s : Store) : Option E × Store :=
  match f.Exec with
  | some err => (some err, s)
  | none => (none, { s with post_like := s.post_like.filter (fun l => l.record ≠ rkey) })

/-- Go `dbPostgres.DeleteRepost`: `DELETE FROM post_repost WHERE record = $1`. -/
def DeleteRepost {E : Type} (f : Faults E) (rkey : String) (s : Store) : Option E × Store :=
  match f.Exec with
  | some err => (some err, s)
  | none => (none, { s with post_repost := s.post_repost.filter (fun l => l.record ≠ rkey) })

/-! ### `MostPopularWithCursor` -/

/-- The number of rows of `post_like` that target the record key `record`. -/
def likeCount (s : Store) (record : String) : Nat :=
  s.post_like.countP (fun l => l.post_rkey = record)

/-- The number of rows of `post_repost` that target the record key `record`. -/
def repostCount (s : Store) (record : String) : Nat :=
  s.post_repost.countP (fun l => l.post_rkey = record)

/-- The groups of `GROUP BY p.did, p.record`: the distinct pairs `(did, record)`
of the rows of `post`. -/
def groupKeys (s : Store) : List (String × String) :=
  (s.post.map (fun p => (p.did, p.record))).dedup

/-- The value of `COUNT(pl.record)` for a group of `post p LEFT JOIN post_like
pl ON p.record = pl.post_rkey`: each row of `post` in the group is joined with
the likes that target its record, and a row without likes gives one joined row
whose `pl.record` is NULL, which is not counted. -/
def groupCount (s : Store) (k : String × String) : Nat :=
  ((s.post.filter (fun p => (p.did, p.record) = k)).map (fun p => likeCount s p.record)).sum

/-- The rows of the query of `MostPopularWithCursor` before `OFFSET` and
`LIMIT`: the groups in the order of `ORDER BY COUNT(pl.record) DESC`.  SQL
leaves the order of groups with equal counts open; here they keep the order of
`groupKeys`. -/
def mostPopularRanking (s : Store) : List (String × String) :=
  (groupKeys s).insertionSort (fun a b => groupCount s b ≤ groupCount s a)

/-- Go `fmt.Sprintf("at://%s/app.bsky.feed.post/%s", did, record)`. -/
def atURI (did record : String) : String :=
  "at://" ++ did ++ "/app.bsky.feed.post/" ++ record

/-- Go `dbPostgres.MostPopularWithCursor`: the query with `OFFSET cursor LIMIT
limit`, then one URI per row.  An error of `Query` or of `Scan` is returned.
A negative `OFFSET` or `LIMIT` is rejected by the database and yields no row. -/
def MostPopularWithCursor {E : Type} (f : Faults E) (limit cursor : Int) (s : Store) :
    Except E (List String) :=
  match f.Query with
  | some err => .error err
  | none =>
    let rows :=
      if cursor < 0 ∨ limit < 0 then []
      else ((mostPopularRanking s).drop cursor.toNat).take limit.toNat
    match rows, f.Scan with
    | _ :: _, some err => .error err
    | _, _ => .ok (rows.map (fun r => atURI r.1 r.2))

/-- The rows of the query of `MostRecentWithCursor` before `OFFSET` and `LIMIT`:
`SELECT did, record FROM post ORDER BY indexed_at DESC`.  Rows with the same
`indexed_at` keep the order of the table. -/
def mostRecentRanking (s : Store) : List (String × String) :=
  (s.post.insertionSort (fun a b => b.indexed_at ≤ a.indexed_at)).map (fun p => (p.did, p.record))

/-- Go `dbPostgres.MostRecentWithCursor`: the query with `OFFSET cursor LIMIT
limit`, then one URI per row.  An error of `Query` or of `Scan` is returned.
A negative `OFFSET` or `LIMIT` is rejected by the database and yields no row. -/
def MostRecentWithCursor {E : Type} (f : Faults E) (limit cursor : Int) (s : Store) :
    Except E (List String) :=
  match f.Query with
  | some err => .error err
  | none =>
    let rows :=
      if cursor < 0 ∨ limit < 0 then []
      else ((mostRecentRanking s).drop cursor.toNat).take limit.toNat
    match rows, f.Scan with
    | _ :: _, some err => .error err
    | _, _ => .ok (rows.map (fun r => atURI r.1 r.2))

/-- The two methods of `db.go` that have the type of `df.dbFunc`. -/
inductive FeedQuery where
  | MostRecent
  | MostPopular
  deriving DecidableEq, Repr

/-- The ordered result list of a query before `OFFSET` and `LIMIT`. -/
def FeedQuery.ranking : FeedQuery → Store → List (String × String)
  | .MostRecent, s => mostRecentRanking s
  | .MostPopular, s => mostPopularRanking s

/-- A method of `db.go` on the store `s`, as the function of `(limit, cursor)`
that is passed to `NewDynamicFeed`. -/
def FeedQuery.run {E : Type} (q : FeedQuery) (f : Faults E) (s : Store) (limit cursor : Int) :
    Except E (List String) :=
  match q with
  | .MostRecent => MostRecentWithCursor f limit cursor s
  | .MostPopular => MostPopularWithCursor f limit cursor s

/-- A method of `db.go` as the storage function `df.dbFunc` of `GetPage`, the
world being the store: a query leaves the store as it is. -/
def storageFunc {E : Type} (q : FeedQuery) (f : Faults E) : DbFunc Store E :=
  fun limit cursor s => (q.run f s limit cursor, s)

/-- The rows `OFFSET offset LIMIT limit` of an ordered result list. -/
def pageRows (ranking : List (String × String)) (limit offset : Int) : List (String × String) :=
  if offset < 0 ∨ limit < 0 then [] else (ranking.drop offset.toNat).take limit.toNat

/-- Modelled from the spec: the declaration of the table `post` is not in the
sources; the specification gives `record` as the unique key of a row (sections
3 and 6), so two rows of `post` never share the pair `(did, record)`. -/
def Store.postKeysUnique (s : Store) : Prop :=
  (s.post.map (fun p => (p.did, p.record))).Nodup

instance (s : Store) : Decidable s.postKeysUnique :=
  inferInstanceAs (Decidable ((s.post.map (fun p : PostRow => (p.did, p.record))).Nodup))

/-! ## The like and repost handlers of `service/pkg/stream/handlers.go` -/

/-- Go `atproto.RepoStrongRef`. -/
structure RepoStrongRef where
  Cid : String
  Uri : String
  deriving DecidableEq, Repr

/-- The part of `appbsky.FeedLike` that the handler reads; a nil `Subject`
pointer is `none`. -/
structure FeedLike where
  Subject : Option RepoStrongRef
  deriving DecidableEq, Repr

/-- The part of `appbsky.FeedRepost` that the handler reads; a nil `Subject`
pointer is `none`. -/
structure FeedRepost where
  Subject : Option RepoStrongRef
  deriving DecidableEq, Repr

/-- What the like, repost and delete handlers reach outside themselves:
`json.Unmarshal` of the record, and the methods of the store `s.db`. -/
structure EdgeEnv (σ E : Type) where
  UnmarshalLike : String → Except E FeedLike
  UnmarshalRepost : String → Except E FeedRepost
  DeletePotentialBirdPost : String → σ → Option E × σ
  AddLike : String → σ → Option E × σ
  DeleteLike : String → σ → Option E × σ
  AddRepost : String → σ → Option E × σ
  DeleteRepost : String → σ → Option E × σ

/-- The segments of a text between its `/` characters; a text without `/` is
its own single segment. -/
def splitSlash : List Char → List (List Char)
  | [] => [[]]
  | c :: cs =>
    if c = '/' then [] :: splitSlash cs
    else
      match splitSlash cs with
      | seg :: segs => (c :: seg) :: segs
      | [] => [[c]]

/-- Go `strings.Split(s, "/")`. -/
def Split (s : String) : List String := (splitSlash s.data).map String.mk

/-- The statement `rkey := strings.Split(uri, "/")[4]` followed by the call
`add(rkey)` of the store and the handler's `if err != nil` on its result. -/
def addBySegment4 {σ E : Type} (add : String → σ → Option E × σ) (uri : String) (w : σ) :
    Outcome E × σ :=
  match (Split uri).get? 4 with
  | none => (.indexOutOfRange 4 (Split uri).length, w)
  | some rkey =>
    match add rkey w with
    | (some err, w1) => (.returned (some err), w1)
    | (none, w1) => (.returned none, w1)

/-- Go `subscriber.handleCreateLike` on the commit payload of the event. -/
def handleCreateLike {σ E : Type} (env : EdgeEnv σ E) (commit : Commit) (w : σ) : Outcome E × σ :=
  match env.UnmarshalLike commit.Record with
  | .error err => (.returned (some err), w)
  | .ok like =>
    match like.Subject with
    | none => (.nilDereference, w)
    | some subject => addBySegment4 env.AddLike subject.Uri w

/-- Go `subscriber.handleCreateRepost` on the commit payload of the event. -/
def handleCreateRepost {σ E : Type} (env : EdgeEnv σ E) (commit : Commit) (w : σ) :
    Outcome E × σ :=
  match env.UnmarshalRepost commit.Record with
  | .error err => (.returned (some err), w)
  | .ok repost =>
    match repost.Subject with
    | none => (.nilDereference, w)
    | some subject => addBySegment4 env.AddRepost subject.Uri w

/-- Go `subscriber.handleDeletePost`: the store is asked to delete the post with
the record key of the event, and its error is returned. -/
def handleDeletePost {σ E : Type} (env : EdgeEnv σ E) (commit : Commit) (w : σ) : Option E × σ :=
  match env.DeletePotentialBirdPost commit.RKey w with
  | (some err, w1) => (some err, w1)
  | (none, w1) => (none, w1)

/-- Go `subscriber.handleDeleteLike`: the body is `return nil`. -/
def handleDeleteLike {σ E : Type} (_env : EdgeEnv σ E) (_commit : Commit) (w : σ) : Option E × σ :=
  (none, w)

/-- Go `subscriber.handleDeleteRepost`: the body is `return nil`. -/
def handleDeleteRepost {σ E : Type} (_env : EdgeEnv σ E) (_commit : Commit) (w : σ) :
    Option E × σ :=
  (none, w)

/-! ### Observing the calls to the store -/

/-- A call to a method of the store, with its argument. -/
inductive StoreCall where
  | DeletePotentialBirdPost (rkey : String)
  | AddLike (rkey : String)
  | DeleteLike (rkey : String)
  | AddRepost (rkey : String)
  | DeleteRepost (rkey : String)
  deriving DecidableEq, Repr

/-- A store that records each call it receives, in order, and returns `result`;
the record of a like or repost decodes to `subject`. -/
def recordingStore {E : Type} (subject : Option RepoStrongRef) (result : Option E) :
    EdgeEnv (List StoreCall) E where
  UnmarshalLike := fun _ => .ok { Subject := subject }
  UnmarshalRepost := fun _ => .ok { Subject := subject }
  DeletePotentialBirdPost := fun rkey calls => (result, calls ++ [.DeletePotentialBirdPost rkey])
  AddLike := fun rkey calls => (result, calls ++ [.AddLike rkey])
  DeleteLike := fun rkey calls => (result, calls ++ [.DeleteLike rkey])
  AddRepost := fun rkey calls => (result, calls ++ [.AddRepost rkey])
  DeleteRepost := fun rkey calls => (result, calls ++ [.DeleteRepost rkey])

/-- A store on the tables of `feedgen/pkg/db/db.go` with a driver that reports
no failure: `DeleteLike` and `DeleteRepost` are the statements of that file; the
other methods leave the tables as they are. -/
def tableStore (subject : Option RepoStrongRef) : EdgeEnv Store String where
  UnmarshalLike := fun _ => .ok { Subject := subject }
  UnmarshalRepost := fun _ => .ok { Subject := subject }
  DeletePotentialBirdPost := fun _ s => (none, s)
  AddLike := fun _ s => (none, s)
  DeleteLike := fun rkey s => DeleteLike Faults.none rkey s
  AddRepost := fun _ s => (none, s)
  DeleteRepost := fun rkey s => DeleteRepost Faults.none rkey s

/-- A store with two posts: "a" has one like and no repost, "b" has no like and
two reposts. -/
def sampleStore : Store :=
  { post := [{ did := "did:plc:b", record := "b", uri := "at://did:plc:b/app.bsky.feed.post/b",
               indexed_at := 1 },
             { did := "did:plc:a", record := "a", uri := "at://did:plc:a/app.bsky.feed.post/a",
               indexed_at := 2 }],
    post_like := [{ did := "did:plc:x", record := "l1", post_rkey := "a", indexed_at := 3 }],
    post_repost := [{ did := "did:plc:x", record := "p1", post_rkey := "b", indexed_at := 4 },
                    { did := "did:plc:y", record := "p2", post_rkey := "b", indexed_at := 5 }] }

/-- A commit of the operation `operation` on the collection `collection` with
the record key `rkey`; the content of its record is left to the decoder. -/
def sampleEdgeCommit (operation collection rkey : String) : Commit :=
  { Operation := operation, Collection := collection, RKey := rkey, Record := "" }

/-! ## Lemmas on machine integers and `strconv` -/

theorem wrapInt64_range (x : Int) : minInt64 ≤ wrapInt64 x ∧ wrapInt64 x ≤ maxInt64 := by
  unfold wrapInt64 minInt64 maxInt64
  constructor <;> omega

theorem wrapInt64_of_range {x : Int} (h1 : minInt64 ≤ x) (h2 : x ≤ maxInt64) : wrapInt64 x = x := by
  simp only [wrapInt64, minInt64, maxInt64] at *
  omega

theorem parseIntFinish_range {neg : Bool} {r : Except NumError Nat} {v : Int}
    (h : parseIntFinish neg r = .ok v) : minInt64 ≤ v ∧ v ≤ maxInt64 := by
  unfold parseIntFinish at h
  split at h
  · cases h
  · cases h
  · split_ifs at h
    all_goals first
      | exact absurd h (fun h0 => Except.noConfusion h0)
      | (simp only [Except.ok.injEq] at h
         subst h
         exact wrapInt64_range _)

theorem parseIntFinish_nonneg {r : Except NumError Nat} {v : Int}
    (h : parseIntFinish false r = .ok v) : 0 ≤ v := by
  unfold parseIntFinish at h
  split at h
  · cases h
  · cases h
  · rename_i un
    simp only [Bool.not_false, Bool.false_eq_true, false_and, true_and, if_false] at h
    split_ifs at h with h1
    simp only [Except.ok.injEq] at h
    subst h
    have h3 : ((un : Nat) : Int) < 2 ^ 63 := by
      have h4 : un < 2 ^ 63 := not_le.mp h1
      exact_mod_cast h4
    rw [wrapInt64_of_range (by simp only [minInt64]; omega) (by simp only [maxInt64]; omega)]
    omega

theorem ParseInt_range {s : String} {v : Int} (h : ParseInt s = .ok v) :
    minInt64 ≤ v ∧ v ≤ maxInt64 := by
  unfold ParseInt at h
  split at h
  · cases h
  · split_ifs at h <;> exact parseIntFinish_range h

theorem ParseInt_nonneg {s : String} {v : Int} (h : ParseInt s = .ok v)
    (hs : s.data.head? ≠ some '-') : 0 ≤ v := by
  unfold ParseInt at h
  split at h
  · cases h
  · rename_i c rest hd
    rw [hd] at hs
    simp only [List.head?_cons, ne_eq, Option.some.injEq] at hs
    split_ifs at h <;> exact parseIntFinish_nonneg h

theorem parseCursor_range {cursor : String} {o : Int} (h : parseCursor cursor = .ok o) :
    minInt64 ≤ o ∧ o ≤ maxInt64 := by
  unfold parseCursor at h
  split_ifs at h
  · exact ParseInt_range h
  · cases h
    simp only [minInt64, maxInt64]
    omega

theorem parseCursor_nonneg {cursor : String} {o : Int} (h : parseCursor cursor = .ok o)
    (hs : cursor.data.head? ≠ some '-') : 0 ≤ o := by
  unfold parseCursor at h
  split_ifs at h
  · exact ParseInt_nonneg h hs
  · cases h
    exact le_refl _

/-! ### `ParseInt` reads back what `FormatInt` writes -/

theorem digitChar_toNat {d : Nat} (h : d < 10) : (Nat.digitChar d).toNat = 48 + d := by
  interval_cases d <;> rfl

theorem parseUintLoop_append (xs ys : List Char) (n : Nat) :
    parseUintLoop (xs ++ ys) n =
      (match parseUintLoop xs n with
      | .ok m => parseUintLoop ys m
      | .error e => .error e) := by
  induction xs generalizing n with
  | nil => simp [parseUintLoop]
  | cons c cs ih =>
    simp only [List.cons_append, parseUintLoop]
    split_ifs
    · rfl
    · rfl
    · exact ih _
    · rfl

theorem parseUintLoop_digit (d n : Nat) (rest : List Char) (hd : d < 10)
    (hn : n * 10 + d ≤ maxUint64) :
    parseUintLoop (Nat.digitChar d :: rest) n = parseUintLoop rest (n * 10 + d) := by
  have hc := digitChar_toNat hd
  simp only [maxUint64] at hn
  have hmod : (n * 10 + d) % 2 ^ 64 = n * 10 + d := Nat.mod_eq_of_lt (by omega)
  have h0 : ('0' : Char).toNat = 48 := rfl
  have h9 : ('9' : Char).toNat = 57 := rfl
  simp only [parseUintLoop, hc, h0, h9, maxUint64, hmod]
  rw [if_pos (by omega), if_neg (by omega), if_neg (by omega)]
  congr 1
  omega

theorem toDigitsCore_append (fuel n : Nat) (ds : List Char) :
    Nat.toDigitsCore 10 fuel n ds = Nat.toDigitsCore 10 fuel n [] ++ ds := by
  induction fuel generalizing n ds with
  | zero => simp [Nat.toDigitsCore]
  | succ fuel ih =>
    simp only [Nat.toDigitsCore]
    split_ifs
    · simp
    · rw [ih (n / 10) (Nat.digitChar (n % 10) :: ds), ih (n / 10) [Nat.digitChar (n % 10)]]
      simp

theorem parseUintLoop_toDigitsCore (fuel n : Nat) (hf : n < fuel) (hn : n ≤ maxUint64) :
    parseUintLoop (Nat.toDigitsCore 10 fuel n []) 0 = .ok n := by
  induction fuel generalizing n with
  | zero => omega
  | succ fuel ih =>
    simp only [Nat.toDigitsCore]
    split_ifs with h0
    · have hlt : n < 10 := by omega
      rw [Nat.mod_eq_of_lt hlt, parseUintLoop_digit n 0 [] hlt (by omega)]
      simp [parseUintLoop]
    · rw [toDigitsCore_append, parseUintLoop_append,
        ih (n / 10) (by omega) (by omega)]
      simp only
      rw [parseUintLoop_digit (n % 10) (n / 10) [] (Nat.mod_lt _ (by omega)) (by omega)]
      simp only [parseUintLoop]
      congr 1
      omega

theorem parseUintLoop_toDigits (n : Nat) (hn : n ≤ maxUint64) :
    parseUintLoop (Nat.toDigits 10 n) 0 = .ok n :=
  parseUintLoop_toDigitsCore (n + 1) n (by omega) hn

/-- The decimal digits of a number start with a digit, so not with a sign. -/
theorem toDigits_head (n : Nat) (hn : n ≤ maxUint64) :
    ∃ c rest, Nat.toDigits 10 n = c :: rest ∧ c ≠ '+' ∧ c ≠ '-' := by
  have h := parseUintLoop_toDigits n hn
  cases hd : Nat.toDigits 10 n with
  | nil =>
    have h1 := toDigitsCore_append n (n / 10) [Nat.digitChar (n % 10)]
    simp only [Nat.toDigits, Nat.toDigitsCore] at hd
    split_ifs at hd
    rw [h1] at hd
    simp at hd
  | cons c rest =>
    refine ⟨c, rest, rfl, ?_, ?_⟩
    · rintro rfl
      rw [hd] at h
      simp [parseUintLoop] at h
    · rintro rfl
      rw [hd] at h
      simp [parseUintLoop] at h

theorem ParseInt_FormatInt (v : Int) (h1 : minInt64 ≤ v) (h2 : v ≤ maxInt64) :
    ParseInt (FormatInt v) = .ok v := by
  simp only [minInt64, maxInt64] at h1 h2
  unfold FormatInt
  split_ifs with hneg
  · have hm : (-v).toNat ≤ maxUint64 := by simp only [maxUint64]; omega
    obtain ⟨c, rest, hd, -, -⟩ := toDigits_head (-v).toNat hm
    have hp := parseUintLoop_toDigits (-v).toNat hm
    have hu : ParseUint (Nat.toDigits 10 (-v).toNat) = .ok (-v).toNat := by
      unfold ParseUint
      rw [if_neg (by rw [hd]; simp), hp]
    simp only [ParseInt]
    rw [if_neg (by decide), if_pos trivial, hu]
    unfold parseIntFinish
    have hle : ¬ ((-v).toNat > 2 ^ 63) := by omega
    simp only [Bool.not_true, Bool.false_eq_true, false_and, if_false, true_and, hle, if_true]
    have hcast : (((-v).toNat : Nat) : Int) = -v := Int.toNat_of_nonneg (by omega)
    rw [hcast]
    congr 1
    simp only [wrapInt64]
    omega
  · have hm : v.toNat ≤ maxUint64 := by simp only [maxUint64]; omega
    obtain ⟨c, rest, hd, hplus, hminus⟩ := toDigits_head v.toNat hm
    have hp := parseUintLoop_toDigits v.toNat hm
    have hu : ParseUint (c :: rest) = .ok v.toNat := by
      unfold ParseUint
      rw [if_neg (by simp), ← hd, hp]
    simp only [ParseInt, hd]
    rw [if_neg hplus, if_neg hminus, hu]
    unfold parseIntFinish
    have hle : ¬ (v.toNat ≥ 2 ^ 63) := by omega
    simp only [Bool.not_false, Bool.false_eq_true, false_and, if_false, true_and, hle]
    have hcast : ((v.toNat : Nat) : Int) = v := Int.toNat_of_nonneg (by omega)
    rw [hcast]
    congr 1
    simp only [wrapInt64]
    omega

/-! ## Lemmas on the page loop -/

theorem collectPosts_eq (limit : Int) (tmr : List String) (posts : List SkeletonFeedPost) :
    collectPosts limit tmr posts
      = posts ++ (tmr.take (limit.toNat - posts.length)).map SkeletonFeedPost.mk := by
  induction tmr generalizing posts with
  | nil => simp [collectPosts]
  | cons postURI rest ih =>
    unfold collectPosts
    split_ifs with h
    · have h0 : limit.toNat - posts.length = 0 := by omega
      simp [h0]
    · have h1 : limit.toNat - posts.length = (limit.toNat - (posts.length + 1)) + 1 := by omega
      rw [ih, h1]
      simp [List.take_succ_cons]

theorem collectPosts_nil (limit : Int) (tmr : List String) :
    collectPosts limit tmr [] = (tmr.take limit.toNat).map SkeletonFeedPost.mk := by
  rw [collectPosts_eq]
  simp

/-! ## Lemmas on `GetPage` -/

theorem clamp_eq (limit : Int) : (if limit > 30 then 30 else limit) = min limit 30 := by
  split_ifs with h
  · exact (min_eq_right (le_of_lt h)).symm
  · exact (min_eq_left (not_lt.mp h)).symm

/-- The shape of every call that gets past the cursor and the storage function. -/
theorem GetPage_ok {σ E : Type} (dbFunc : DbFunc σ E) (limit o : Int) (cursor : String)
    (w w1 : σ) (tmr : List String)
    (hcur : parseCursor cursor = .ok o)
    (hdb : dbFunc (min limit 30) o w = (.ok tmr, w1)) :
    GetPage dbFunc limit cursor w =
      ({ posts := (tmr.take (min limit 30).toNat).map SkeletonFeedPost.mk,
         newCursor :=
           if wrapInt64 (o + (((tmr.take (min limit 30).toNat).map SkeletonFeedPost.mk).length : Int))
                < 210 then
             some (FormatInt (wrapInt64
               (o + (((tmr.take (min limit 30).toNat).map SkeletonFeedPost.mk).length : Int))))
           else none,
         err := none }, w1) := by
  unfold GetPage
  simp only [hcur, clamp_eq, hdb, collectPosts_nil]

/-- The storage function is called once whenever the cursor is accepted. -/
theorem GetPage_calls {E : Type} (f : Int → Int → Except E (List String)) (limit o : Int)
    (cursor : String) (calls : List (Int × Int)) (hcur : parseCursor cursor = .ok o) :
    (GetPage (recording f) limit cursor calls).2 = calls ++ [(min limit 30, o)] := by
  unfold GetPage
  simp only [hcur, clamp_eq, recording]
  cases f (min limit 30) o <;> rfl

theorem take_isLongestPrefixWithin (tmr : List String) (k : Nat) :
    IsLongestPrefixWithin (tmr.take k) tmr (k : Int) := by
  refine ⟨List.take_prefix k tmr, ?_, ?_⟩
  · have := List.length_take_le k tmr
    exact_mod_cast this
  · intro q hq hlen
    have h1 : q.length ≤ tmr.length := hq.length_le
    have h2 : q.length ≤ k := by exact_mod_cast hlen
    rw [List.length_take]
    exact le_min h2 h1

theorem uris_map_mk (l : List String) : uris (l.map SkeletonFeedPost.mk) = l := by
  unfold uris
  simp [Function.comp_def]

/-! ## The page contract of `GetPage` -/

/-- C1, as stated, fails for a negative limit: with limit `-1` the storage
function is called with `L = -1` and the page is empty, but the empty page has
0 entries, which is not "at most L". -/
theorem GetPage_negative_limit_counterexample :
    (GetPage (recording (fun _ _ => (Except.ok ["at://a"] : Except Unit (List String))))
        (-1) "" []).2 = [(min (-1) 30, 0)] ∧
    ¬ IsLongestPrefixWithin
        (uris (GetPage (recording (fun _ _ => (Except.ok ["at://a"] : Except Unit (List String))))
          (-1) "" []).1.posts)
        ["at://a"] (min (-1) 30) := by
  refine ⟨by decide, ?_⟩
  intro h
  exact absurd h.2.1 (by decide)

/-- C1 (amended): for every limit, every accepted cursor (offset `o`: 0 for the
empty cursor, the parsed integer otherwise) and every storage function that
succeeds on `(L, o)` with `L = min limit 30`, `GetPage` succeeds, leaves the
world that this one call leaves, calls the storage function exactly once with
`(L, o)`, and returns the first `max L 0` entries of its result in order, one
post per URI: the longest prefix with at most `max L 0` entries.  The page never
has more than 30 entries, and a limit above 30 gives what limit 30 gives. -/
theorem GetPage_page {σ E : Type} (dbFunc : DbFunc σ E) (limit o : Int) (cursor : String)
    (w w1 : σ) (tmr : List String)
    (hcur : parseCursor cursor = .ok o)
    (hdb : dbFunc (min limit 30) o w = (.ok tmr, w1)) :
    (GetPage dbFunc limit cursor w).2 = w1 ∧
    (GetPage dbFunc limit cursor w).1.err = none ∧
    (GetPage dbFunc limit cursor w).1.posts
      = (tmr.take (max (min limit 30) 0).toNat).map SkeletonFeedPost.mk ∧
    IsLongestPrefixWithin (uris (GetPage dbFunc limit cursor w).1.posts) tmr
      (max (min limit 30) 0) ∧
    (GetPage dbFunc limit cursor w).1.posts.length ≤ 30 ∧
    (30 < limit → GetPage dbFunc limit cursor w = GetPage dbFunc 30 cursor w) ∧
    (∀ (f : Int → Int → Except E (List String)) (calls : List (Int × Int)),
      (GetPage (recording f) limit cursor calls).2 = calls ++ [(min limit 30, o)]) := by
  have hk : (max (min limit 30) 0).toNat = (min limit 30).toNat := by omega
  have hcast : (((min limit 30).toNat : Nat) : Int) = max (min limit 30) 0 := by omega
  have hG := GetPage_ok dbFunc limit o cursor w w1 tmr hcur hdb
  refine ⟨by rw [hG], by rw [hG], by rw [hG, hk], ?_, ?_, ?_, ?_⟩
  · rw [hG]
    simp only [uris_map_mk]
    rw [← hcast]
    exact take_isLongestPrefixWithin tmr _
  · rw [hG]
    simp only [List.length_map, List.length_take]
    omega
  · intro h30
    unfold GetPage
    simp only [clamp_eq, min_eq_right (le_of_lt h30), min_self]
  · intro f calls
    exact GetPage_calls f limit o cursor calls hcur

/-- The page contract at limit 2, cursor "1" and a storage function with three rows. -/
theorem GetPage_page_witness :
    parseCursor "1" = .ok 1 ∧
    (GetPage (recording (fun _ _ => (Except.ok ["at://a", "at://b", "at://c"] :
        Except Unit (List String)))) 2 "1" []).1.posts
      = [{ Post := "at://a" }, { Post := "at://b" }] :=
  ⟨by decide,
   (GetPage_page (recording (fun _ _ => (Except.ok ["at://a", "at://b", "at://c"] :
        Except Unit (List String)))) 2 1 "1" [] [(2, 1)] ["at://a", "at://b", "at://c"]
      (by decide) (by decide)).2.2.1⟩

/-! ## Cursor arithmetic -/

/-- While `o + n` stays within `int64`, the next cursor is the decimal string of
`o + n` when `o + n < 210`, and absent otherwise. -/
theorem GetPage_nextCursor {σ E : Type} (dbFunc : DbFunc σ E) (limit o : Int) (cursor : String)
    (w w1 : σ) (tmr : List String)
    (hcur : parseCursor cursor = .ok o)
    (hdb : dbFunc (min limit 30) o w = (.ok tmr, w1))
    (hno : o + ((GetPage dbFunc limit cursor w).1.posts.length : Int) ≤ maxInt64) :
    (GetPage dbFunc limit cursor w).1.newCursor =
      if o + ((GetPage dbFunc limit cursor w).1.posts.length : Int) < 210 then
        some (FormatInt (o + ((GetPage dbFunc limit cursor w).1.posts.length : Int)))
      else none := by
  have hG := GetPage_ok dbFunc limit o cursor w w1 tmr hcur hdb
  have hr := parseCursor_range hcur
  rw [hG] at hno ⊢
  simp only at hno ⊢
  rw [wrapInt64_of_range (by omega) hno]

/-- While `o + n` stays within `int64`, an offset of 210 or more gives no next cursor. -/
theorem GetPage_no_cursor_from_210 {σ E : Type} (dbFunc : DbFunc σ E) (limit o : Int)
    (cursor : String) (w w1 : σ) (tmr : List String)
    (hcur : parseCursor cursor = .ok o)
    (hdb : dbFunc (min limit 30) o w = (.ok tmr, w1))
    (hno : o + ((GetPage dbFunc limit cursor w).1.posts.length : Int) ≤ maxInt64)
    (h210 : 210 ≤ o) :
    (GetPage dbFunc limit cursor w).1.newCursor = none := by
  rw [GetPage_nextCursor dbFunc limit o cursor w w1 tmr hcur hdb hno]
  rw [if_neg (by omega)]

theorem FormatInt_ne_empty (v : Int) (h1 : minInt64 ≤ v) (h2 : v ≤ maxInt64) :
    FormatInt v ≠ "" := by
  intro h
  have hp := ParseInt_FormatInt v h1 h2
  rw [h] at hp
  have he : ParseInt "" = .error .ErrSyntax := by decide
  rw [he] at hp
  exact Except.noConfusion hp

/-- While `o + n` stays within `int64`, the next cursor is accepted and resumes
at offset `o + n`: a second call queries the storage function there, once. -/
theorem GetPage_resume {σ E : Type} (dbFunc : DbFunc σ E) (limit o : Int) (cursor c : String)
    (w w1 : σ) (tmr : List String)
    (hcur : parseCursor cursor = .ok o)
    (hdb : dbFunc (min limit 30) o w = (.ok tmr, w1))
    (hno : o + ((GetPage dbFunc limit cursor w).1.posts.length : Int) ≤ maxInt64)
    (hc : (GetPage dbFunc limit cursor w).1.newCursor = some c) :
    parseCursor c = .ok (o + ((GetPage dbFunc limit cursor w).1.posts.length : Int)) ∧
    ∀ (f : Int → Int → Except E (List String)) (limit2 : Int) (calls : List (Int × Int)),
      (GetPage (recording f) limit2 c calls).2
        = calls ++ [(min limit2 30, o + ((GetPage dbFunc limit cursor w).1.posts.length : Int))] := by
  have hr := parseCursor_range hcur
  have hn := GetPage_nextCursor dbFunc limit o cursor w w1 tmr hcur hdb hno
  rw [hc] at hn
  have hparse : parseCursor c
      = .ok (o + ((GetPage dbFunc limit cursor w).1.posts.length : Int)) := by
    split_ifs at hn with hlt
    simp only [Option.some.injEq] at hn
    subst hn
    unfold parseCursor
    rw [if_pos (FormatInt_ne_empty _ (by omega) hno)]
    exact ParseInt_FormatInt _ (by omega) hno
  exact ⟨hparse, fun f limit2 calls => GetPage_calls f limit2 _ c calls hparse⟩

/-- The corner that the condition on `o + n` leaves out: a storage function that
returns a row at offset `o = 2^63 - 1`, which no query over a table does.  Then
`o + n` wraps in `int64` and the next cursor is the decimal string of `-2^63`. -/
theorem GetPage_nextOffset_overflow :
    parseCursor "9223372036854775807" = .ok 9223372036854775807 ∧
    (GetPage (recording (fun _ _ => (Except.ok ["at://a"] : Except Unit (List String))))
        1 "9223372036854775807" []).1
      = { posts := [{ Post := "at://a" }], newCursor := some "-9223372036854775808", err := none } ∧
    ¬ ((9223372036854775807 : Int) + 1 < 210) ∧
    FormatInt (9223372036854775807 + 1) = "9223372036854775808" := by
  decide

/-- The same corner at offset `2^63 - 2` with a storage function that returns
two rows there: the sum wraps and a next cursor is returned. -/
theorem GetPage_cursor_past_ceiling :
    parseCursor "9223372036854775806" = .ok 9223372036854775806 ∧
    (210 : Int) ≤ 9223372036854775806 ∧
    (GetPage (recording (fun _ _ => (Except.ok ["at://a", "at://b"] : Except Unit (List String))))
        30 "9223372036854775806" []).1.err = none ∧
    (GetPage (recording (fun _ _ => (Except.ok ["at://a", "at://b"] : Except Unit (List String))))
        30 "9223372036854775806" []).1.newCursor = some "-9223372036854775808" := by
  decide

/-- The same corner seen from the second call: the cursor returned after the
wrap is accepted and leads to a query at offset `-2^63`. -/
theorem GetPage_resume_overflow :
    (GetPage (recording (fun _ _ => (Except.ok ["at://a"] : Except Unit (List String))))
        5 "9223372036854775807" []).1
      = { posts := [{ Post := "at://a" }], newCursor := some "-9223372036854775808", err := none } ∧
    (GetPage (recording (fun _ _ => (Except.ok ["at://a"] : Except Unit (List String))))
        5 "-9223372036854775808" []).2 = [(5, -9223372036854775808)] ∧
    (-9223372036854775808 : Int) ≠ 9223372036854775807 + 1 := by
  decide

/-! ## Rejected cursors -/

/-- C5: for every non-empty cursor that `strconv.ParseInt(cursor, 10, 64)`
rejects, `GetPage` returns the cursor error with no posts and no next cursor;
the world is untouched whatever the storage function is, and a recording
storage function sees no call. -/
theorem GetPage_rejects_bad_cursor {σ E : Type} (dbFunc : DbFunc σ E) (limit : Int)
    (cursor : String) (w : σ) (e : NumError)
    (hne : cursor ≠ "") (herr : ParseInt cursor = .error e) :
    GetPage dbFunc limit cursor w
      = ({ posts := [], newCursor := none, err := some (.cursorNotInteger e) }, w) ∧
    ∀ (f : Int → Int → Except E (List String)) (calls : List (Int × Int)),
      (GetPage (recording f) limit cursor calls).2 = calls := by
  have hcur : parseCursor cursor = .error e := by
    unfold parseCursor
    rw [if_pos hne, herr]
  constructor
  · unfold GetPage
    simp only [hcur]
  · intro f calls
    unfold GetPage
    simp only [hcur]

/-- The cursor "12a" is rejected before any storage call. -/
theorem GetPage_rejects_bad_cursor_witness :
    ParseInt "12a" = .error .ErrSyntax ∧
    GetPage (recording (fun _ _ => (Except.ok ["at://a"] : Except Unit (List String)))) 10 "12a" []
      = ({ posts := [], newCursor := none, err := some (.cursorNotInteger .ErrSyntax) }, []) :=
  ⟨by decide,
   (GetPage_rejects_bad_cursor
      (recording (fun _ _ => (Except.ok ["at://a"] : Except Unit (List String)))) 10 "12a" []
      .ErrSyntax (by decide) (by decide)).1⟩

/-! ## The sign of offsets and cursors -/

/-- C6, as stated, fails: the cursor "-5" is accepted, the storage function is
called with offset `-5`, and the next cursor returned is "-5". -/
theorem GetPage_negative_cursor_counterexample :
    (GetPage (recording (fun _ _ => (Except.ok [] : Except Unit (List String)))) 10 "-5" [])
      = ({ posts := [], newCursor := some (FormatInt (-5)), err := none }, [(10, -5)]) ∧
    ¬ ((0 : Int) ≤ -5) := by
  decide

/-- C6 (amended): a cursor encodes a signed 64-bit offset.  For every cursor
that `GetPage` accepts, the offset `o` passed to the storage function is the
`int64` the cursor denotes; it is non-negative whenever the cursor does not
start with `-` (the empty cursor gives 0).  In every successful call whose
offset is non-negative and whose `o + n` stays within `int64`, a next cursor,
when returned, is the decimal string of the non-negative integer `o + n`. -/
theorem GetPage_offset_sign {σ E : Type} (dbFunc : DbFunc σ E) (limit o : Int) (cursor : String)
    (w w1 : σ) (tmr : List String)
    (hcur : parseCursor cursor = .ok o)
    (hdb : dbFunc (min limit 30) o w = (.ok tmr, w1)) :
    (∀ (f : Int → Int → Except E (List String)) (calls : List (Int × Int)),
      (GetPage (recording f) limit cursor calls).2 = calls ++ [(min limit 30, o)]) ∧
    (minInt64 ≤ o ∧ o ≤ maxInt64) ∧
    (cursor.data.head? ≠ some '-' → 0 ≤ o) ∧
    (0 ≤ o → o + ((GetPage dbFunc limit cursor w).1.posts.length : Int) ≤ maxInt64 →
      ∀ c, (GetPage dbFunc limit cursor w).1.newCursor = some c →
        c = FormatInt (o + ((GetPage dbFunc limit cursor w).1.posts.length : Int)) ∧
        0 ≤ o + ((GetPage dbFunc limit cursor w).1.posts.length : Int)) := by
  refine ⟨fun f calls => GetPage_calls f limit o cursor calls hcur, parseCursor_range hcur,
    parseCursor_nonneg hcur, ?_⟩
  intro h0 hno c hc
  have hn := GetPage_nextCursor dbFunc limit o cursor w w1 tmr hcur hdb hno
  rw [hc] at hn
  split_ifs at hn with hlt
  simp only [Option.some.injEq] at hn
  exact ⟨hn, by omega⟩

/-- The sign contract at cursor "7" over a storage function with two rows. -/
theorem GetPage_offset_sign_witness :
    parseCursor "7" = .ok 7 ∧
    (∀ c, (GetPage (recording (fun _ _ => (Except.ok ["at://a", "at://b"] :
          Except Unit (List String)))) 10 "7" []).1.newCursor = some c →
        c = FormatInt (7 + ((GetPage (recording (fun _ _ => (Except.ok ["at://a", "at://b"] :
          Except Unit (List String)))) 10 "7" []).1.posts.length : Int)) ∧
        0 ≤ 7 + ((GetPage (recording (fun _ _ => (Except.ok ["at://a", "at://b"] :
          Except Unit (List String)))) 10 "7" []).1.posts.length : Int)) :=
  ⟨by decide,
   (GetPage_offset_sign (recording (fun _ _ => (Except.ok ["at://a", "at://b"] :
        Except Unit (List String)))) 10 7 "7" [] [(10, 7)] ["at://a", "at://b"]
      (by decide) (by decide)).2.2.2 (by decide) (by decide)⟩

/-! ## Dispatch -/

theorem runCase_eq {σ E : Type} (h : Handler σ E) (event : Event) (w : σ) :
    runCase h event w = h event w := by
  unfold runCase
  split <;> simp_all

/-- C7: `handleCommit` equals the reference definition on every event, for
every six handlers and every world: no handler is called for an event without a
commit payload or with a pair outside the six, and otherwise exactly the handler
of the pair is called, once, and its result is returned unchanged.  With
recording handlers the calls made are exactly that one call, or none. -/
theorem handleCommit_eq_ref {σ E : Type} (s : Handlers σ E) (event : Event) (w : σ) :
    handleCommit s event w = handleCommitRef s event w ∧
    ∀ (result : HandlerKind → Option E) (calls : List HandlerKind),
      handleCommit (recordingHandlers result) event calls =
        match event.Commit with
        | none => (none, calls)
        | some commit =>
          match dispatchRef commit.Operation commit.Collection with
          | none => (none, calls)
          | some kind => (result kind, calls ++ [kind]) := by
  have key : ∀ {τ : Type} (t : Handlers τ E) (v : τ),
      handleCommit t event v = handleCommitRef t event v := by
    intro τ t v
    unfold handleCommit handleCommitRef
    cases event.Commit with
    | none => rfl
    | some commit =>
      simp only [runCase_eq, dispatchRef, CommitOperationCreate, CommitOperationDelete,
        CollectionKindFeedPost, CollectionKindFeedLike, CollectionKindFeedRepost]
      split_ifs <;> simp_all [Handlers.get]
  refine ⟨key s w, ?_⟩
  intro result calls
  rw [key]
  unfold handleCommitRef
  cases event.Commit with
  | none => rfl
  | some commit =>
    simp only
    cases dispatchRef commit.Operation commit.Collection with
    | none => rfl
    | some kind => cases kind <;> rfl


/-! ## Lemmas on the loop of `handleCreatePost` -/

/-- Observing the calls changes neither how the loop ends nor what it does to
the world. -/
theorem classifyImages_observed_world {σ E : Type} (env : PostEnv σ E) (did rkey : String)
    (imgs : List EmbedImages_Image) (w : σ) (log : List (Call E)) :
    (classifyImages (observed env) did rkey imgs (w, log)).1
        = (classifyImages env did rkey imgs w).1 ∧
    (classifyImages (observed env) did rkey imgs (w, log)).2.1
        = (classifyImages env did rkey imgs w).2 := by
  induction imgs generalizing w log with
  | nil => simp [classifyImages]
  | cons img rest ih =>
    unfold classifyImages
    cases img.Image with
    | none => exact ⟨rfl, rfl⟩
    | some blob =>
      simp only [observed]
      rcases h : env.classify did img w with ⟨⟨resp, err⟩, w1⟩
      cases err with
      | some e => exact ih _ _
      | none =>
        simp only
        split_ifs with hacc
        · rcases h2 : env.AddPotentialBirdPost did rkey (postURLOf did rkey) w1 with ⟨serr, w2⟩
          cases serr with
          | some e => exact ih _ _
          | none => exact ⟨rfl, rfl⟩
        · exact ih _ _

/-- The log the loop leaves is the log it started from followed by a loop trace. -/
theorem classifyImages_observed_log {σ E : Type} (env : PostEnv σ E) (did rkey : String)
    (imgs : List EmbedImages_Image) (w : σ) (log : List (Call E)) :
    ∃ t, (classifyImages (observed env) did rkey imgs (w, log)).2.2 = log ++ t ∧
      LoopTrace did rkey imgs t (classifyImages (observed env) did rkey imgs (w, log)).1 := by
  induction imgs generalizing w log with
  | nil => exact ⟨[], by simp [classifyImages], by simpa [classifyImages] using LoopTrace.done⟩
  | cons img rest ih =>
    unfold classifyImages
    cases hb : img.Image with
    | none => exact ⟨[], by simp, .aborted img rest hb⟩
    | some blob =>
      have hblob : img.Image ≠ none := by simp [hb]
      simp only [observed]
      rcases h : env.classify did img w with ⟨⟨resp, err⟩, w1⟩
      cases err with
      | some e =>
        obtain ⟨t, ht, hl⟩ := ih w1 (log ++ [Call.classified did img resp (some e)])
        exact ⟨_ :: t, by simpa using ht, .classifyFailed img rest resp e t _ hblob hl⟩
      | none =>
        simp only
        split_ifs with hacc
        · rcases h2 : env.AddPotentialBirdPost did rkey (postURLOf did rkey) w1 with ⟨serr, w2⟩
          cases serr with
          | some e =>
            obtain ⟨t, ht, hl⟩ := ih w2 (log ++ [Call.classified did img resp none] ++
              [Call.stored did rkey (postURLOf did rkey) (some e)])
            exact ⟨_ :: _ :: t, by simpa using ht, .storeFailed img rest resp e t _ hblob hacc hl⟩
          | none =>
            exact ⟨_, by simp, .persisted img rest resp hblob hacc⟩
        · obtain ⟨t, ht, hl⟩ := ih w1 (log ++ [Call.classified did img resp none])
          exact ⟨_ :: t, by simpa using ht, .rejected img rest resp t _ hblob hacc hl⟩

/-! ### What a loop trace looks like -/

theorem LoopTrace.classified_prefix {E : Type} {did rkey : String}
    {imgs : List EmbedImages_Image} {t : List (Call E)} {o : Outcome E}
    (h : LoopTrace did rkey imgs t o) : classifiedImages t <+: imgs := by
  induction h with
  | done => exact List.prefix_rfl
  | aborted img rest _ => exact List.nil_prefix
  | classifyFailed img rest response err t o _ _ ih =>
    simpa [classifiedImages, List.cons_prefix_cons] using ih
  | rejected img rest response t o _ _ _ ih =>
    simpa [classifiedImages, List.cons_prefix_cons] using ih
  | storeFailed img rest response err t o _ _ _ ih =>
    simpa [classifiedImages, List.cons_prefix_cons] using ih
  | persisted img rest response _ _ =>
    simp [classifiedImages, List.cons_prefix_cons]

theorem LoopTrace.stored_after_accept {E : Type} {did rkey : String}
    {imgs : List EmbedImages_Image} {t : List (Call E)} {o : Outcome E}
    (h : LoopTrace did rkey imgs t o)
    (d r u : String) (e : Option E) (hmem : Call.stored d r u e ∈ t) :
    d = did ∧ r = rkey ∧ u = postURLOf did rkey ∧
    ∃ img ∈ imgs, ∃ response, accepts response ∧
      [Call.classified did img response none, Call.stored d r u e] <:+: t := by
  induction h with
  | done => simp at hmem
  | aborted img rest _ => simp at hmem
  | classifyFailed img rest response err t o _ _ ih =>
    simp only [List.mem_cons, reduceCtorEq, false_or] at hmem
    obtain ⟨h1, h2, h3, img', himg, response', hacc, hin⟩ := ih hmem
    exact ⟨h1, h2, h3, img', List.mem_cons_of_mem _ himg, response', hacc,
      hin.trans (List.suffix_cons _ _).isInfix⟩
  | rejected img rest response t o _ _ _ ih =>
    simp only [List.mem_cons, reduceCtorEq, false_or] at hmem
    obtain ⟨h1, h2, h3, img', himg, response', hacc, hin⟩ := ih hmem
    exact ⟨h1, h2, h3, img', List.mem_cons_of_mem _ himg, response', hacc,
      hin.trans (List.suffix_cons _ _).isInfix⟩
  | storeFailed img rest response err t o _ hacc0 _ ih =>
    simp only [List.mem_cons, reduceCtorEq, false_or] at hmem
    rcases hmem with hhead | htail
    · simp only [Call.stored.injEq] at hhead
      obtain ⟨rfl, rfl, rfl, rfl⟩ := hhead
      exact ⟨rfl, rfl, rfl, img, List.mem_cons_self _ _, response, hacc0,
        (List.prefix_append [_, _] t).isInfix⟩
    · obtain ⟨h1, h2, h3, img', himg, response', hacc, hin⟩ := ih htail
      exact ⟨h1, h2, h3, img', List.mem_cons_of_mem _ himg, response', hacc,
        (hin.trans (List.suffix_cons _ _).isInfix).trans (List.suffix_cons _ _).isInfix⟩
  | persisted img rest response _ hacc0 =>
    simp only [List.mem_cons, reduceCtorEq, false_or, List.mem_singleton, List.not_mem_nil,
      or_false] at hmem
    simp only [Call.stored.injEq] at hmem
    obtain ⟨rfl, rfl, rfl, rfl⟩ := hmem
    exact ⟨rfl, rfl, rfl, img, List.mem_cons_self _ _, response, hacc0, List.infix_rfl⟩

theorem LoopTrace.persisted_last {E : Type} {did rkey : String}
    {imgs : List EmbedImages_Image} {t : List (Call E)} {o : Outcome E}
    (h : LoopTrace did rkey imgs t o)
    (d r u : String) (hmem : Call.stored d r u none ∈ t) :
    [Call.stored d r u (none : Option E)] <:+ t := by
  induction h with
  | done => simp at hmem
  | aborted img rest _ => simp at hmem
  | classifyFailed img rest response err t o _ _ ih =>
    simp only [List.mem_cons, reduceCtorEq, false_or] at hmem
    exact (ih hmem).trans (List.suffix_cons _ _)
  | rejected img rest response t o _ _ _ ih =>
    simp only [List.mem_cons, reduceCtorEq, false_or] at hmem
    exact (ih hmem).trans (List.suffix_cons _ _)
  | storeFailed img rest response err t o _ _ _ ih =>
    simp only [List.mem_cons, reduceCtorEq, false_or, Call.stored.injEq, and_false] at hmem
    exact ((ih hmem).trans (List.suffix_cons _ _)).trans (List.suffix_cons _ _)
  | persisted img rest response _ _ =>
    simp only [List.mem_cons, reduceCtorEq, false_or, List.mem_singleton, List.not_mem_nil,
      or_false] at hmem
    rw [hmem]
    exact List.suffix_cons _ _

theorem LoopTrace.storedCount_le_one {E : Type} {did rkey : String}
    {imgs : List EmbedImages_Image} {t : List (Call E)} {o : Outcome E}
    (h : LoopTrace did rkey imgs t o) : storedCount t ≤ 1 := by
  induction h with
  | done => simp [storedCount]
  | aborted img rest _ => simp [storedCount]
  | classifyFailed img rest response err t o _ _ ih => simpa [storedCount] using ih
  | rejected img rest response t o _ _ _ ih => simpa [storedCount] using ih
  | storeFailed img rest response err t o _ _ _ ih => simpa [storedCount] using ih
  | persisted img rest response _ _ => simp [storedCount]

theorem LoopTrace.accepted_goes_to_store {E : Type} {did rkey : String}
    {imgs : List EmbedImages_Image} {t : List (Call E)} {o : Outcome E}
    (h : LoopTrace did rkey imgs t o)
    (img : EmbedImages_Image) (response : classifyResponse)
    (hmem : Call.classified did img response none ∈ t) (hacc : accepts response) :
    ∃ e : Option E, [Call.classified did img response none,
      Call.stored did rkey (postURLOf did rkey) e] <:+: t := by
  induction h with
  | done => simp at hmem
  | aborted img0 rest _ => simp at hmem
  | classifyFailed img0 rest response0 err t o _ _ ih =>
    simp only [List.mem_cons, Call.classified.injEq, reduceCtorEq, and_false, false_or] at hmem
    obtain ⟨e, he⟩ := ih hmem
    exact ⟨e, he.trans (List.suffix_cons _ _).isInfix⟩
  | rejected img0 rest response0 t o _ hrej _ ih =>
    simp only [List.mem_cons, Call.classified.injEq, true_and, and_true] at hmem
    rcases hmem with ⟨rfl, rfl⟩ | htail
    · exact absurd hacc hrej
    · obtain ⟨e, he⟩ := ih htail
      exact ⟨e, he.trans (List.suffix_cons _ _).isInfix⟩
  | storeFailed img0 rest response0 err t o _ _ _ ih =>
    simp only [List.mem_cons, Call.classified.injEq, true_and, and_true, reduceCtorEq,
      false_or] at hmem
    rcases hmem with ⟨rfl, rfl⟩ | htail
    · exact ⟨some err, (List.prefix_append [_, _] t).isInfix⟩
    · obtain ⟨e, he⟩ := ih htail
      exact ⟨e, (he.trans (List.suffix_cons _ _).isInfix).trans (List.suffix_cons _ _).isInfix⟩
  | persisted img0 rest response0 _ _ =>
    simp only [List.mem_cons, Call.classified.injEq, true_and, and_true, reduceCtorEq,
      List.mem_singleton, List.not_mem_nil, or_false] at hmem
    obtain ⟨rfl, rfl⟩ := hmem
    exact ⟨none, List.infix_rfl⟩

/-- Over no image the loop makes no call and the handler returns nil. -/
theorem LoopTrace.of_nil {E : Type} {did rkey : String} {t : List (Call E)} {o : Outcome E}
    (h : LoopTrace did rkey [] t o) : t = [] ∧ o = .returned none := by
  cases h
  exact ⟨rfl, rfl⟩

/-- How a loop trace starts: with the abort when the first image has no blob,
with the classification of the first image otherwise. -/
theorem LoopTrace.head {E : Type} {did rkey : String} {next : EmbedImages_Image}
    {more : List EmbedImages_Image} {t : List (Call E)} {o : Outcome E}
    (h : LoopTrace did rkey (next :: more) t o) :
    (next.Image = none → t = [] ∧ o = .nilDereference) ∧
    (next.Image ≠ none → ∃ response err rest, t = Call.classified did next response err :: rest) := by
  cases h with
  | aborted _ _ hb => exact ⟨fun _ => ⟨rfl, rfl⟩, fun hne => absurd hb hne⟩
  | classifyFailed _ _ response err t0 _ hb _ =>
    exact ⟨fun hn => absurd hn hb, fun _ => ⟨response, some err, t0, rfl⟩⟩
  | rejected _ _ response t0 _ hb _ _ =>
    exact ⟨fun hn => absurd hn hb, fun _ => ⟨response, none, t0, rfl⟩⟩
  | storeFailed _ _ response err t0 _ hb _ _ =>
    exact ⟨fun hn => absurd hn hb, fun _ => ⟨response, none, _, rfl⟩⟩
  | persisted _ _ response hb _ =>
    exact ⟨fun hn => absurd hn hb, fun _ => ⟨response, none, _, rfl⟩⟩

/-- After a call that lets the loop go on, the rest of the log is a loop trace
over the images that have not been classified yet. -/
theorem LoopTrace.after_goesOn {E : Type} {did rkey : String}
    {imgs : List EmbedImages_Image} {t : List (Call E)} {o : Outcome E}
    (h : LoopTrace did rkey imgs t o) (pre : List (Call E)) (c : Call E) (rest : List (Call E))
    (ht : t = pre ++ c :: rest) (hc : c.goesOn) :
    ∃ remaining, imgs = classifiedImages (pre ++ [c]) ++ remaining ∧
      LoopTrace did rkey remaining rest o := by
  induction h generalizing pre with
  | done => simp at ht
  | aborted img rest0 _ => simp at ht
  | classifyFailed img rest0 response err t0 o _ h0 ih =>
    cases pre with
    | nil =>
      simp only [List.nil_append, List.cons.injEq] at ht
      obtain ⟨rfl, rfl⟩ := ht
      exact ⟨rest0, by simp [classifiedImages], h0⟩
    | cons c0 pre0 =>
      simp only [List.cons_append, List.cons.injEq] at ht
      obtain ⟨rfl, ht0⟩ := ht
      obtain ⟨remaining, hr, hl⟩ := ih pre0 ht0
      exact ⟨remaining, by simp [classifiedImages, hr], hl⟩
  | rejected img rest0 response t0 o _ _ h0 ih =>
    cases pre with
    | nil =>
      simp only [List.nil_append, List.cons.injEq] at ht
      obtain ⟨rfl, rfl⟩ := ht
      exact ⟨rest0, by simp [classifiedImages], h0⟩
    | cons c0 pre0 =>
      simp only [List.cons_append, List.cons.injEq] at ht
      obtain ⟨rfl, ht0⟩ := ht
      obtain ⟨remaining, hr, hl⟩ := ih pre0 ht0
      exact ⟨remaining, by simp [classifiedImages, hr], hl⟩
  | storeFailed img rest0 response err t0 o _ hacc h0 ih =>
    cases pre with
    | nil =>
      simp only [List.nil_append, List.cons.injEq] at ht
      obtain ⟨rfl, rfl⟩ := ht
      simp only [Call.goesOn, ne_eq, not_true_eq_false, false_or] at hc
      exact absurd hacc hc
    | cons c0 pre0 =>
      simp only [List.cons_append, List.cons.injEq] at ht
      obtain ⟨rfl, ht0⟩ := ht
      cases pre0 with
      | nil =>
        simp only [List.nil_append, List.cons.injEq] at ht0
        obtain ⟨rfl, rfl⟩ := ht0
        exact ⟨rest0, by simp [classifiedImages], h0⟩
      | cons c1 pre1 =>
        simp only [List.cons_append, List.cons.injEq] at ht0
        obtain ⟨rfl, ht1⟩ := ht0
        obtain ⟨remaining, hr, hl⟩ := ih pre1 ht1
        exact ⟨remaining, by simp [classifiedImages, hr], hl⟩
  | persisted img rest0 response _ hacc =>
    cases pre with
    | nil =>
      simp only [List.nil_append, List.cons.injEq] at ht
      obtain ⟨rfl, rfl⟩ := ht
      simp only [Call.goesOn, ne_eq, not_true_eq_false, false_or] at hc
      exact absurd hacc hc
    | cons c0 pre0 =>
      simp only [List.cons_append, List.cons.injEq] at ht
      obtain ⟨rfl, ht0⟩ := ht
      cases pre0 with
      | nil =>
        simp only [List.nil_append, List.cons.injEq] at ht0
        obtain ⟨rfl, rfl⟩ := ht0
        simp [Call.goesOn] at hc
      | cons c1 pre1 =>
        simp at ht0

/-! ## The enrichment gate of `handleCreatePost` -/

/-- Observing the calls does not change how `handleCreatePost` ends. -/
theorem handleCreatePost_observed {σ E : Type} (env : PostEnv σ E) (did : String)
    (commit : Commit) (w : σ) :
    (handleCreatePost (observed env) did commit (w, [])).1 = (handleCreatePost env did commit w).1 := by
  unfold handleCreatePost
  have hU : (observed env).Unmarshal = env.Unmarshal := rfl
  rw [hU]
  cases env.Unmarshal commit.Record with
  | error err => rfl
  | ok post =>
    rcases post with ⟨reply, embed⟩
    cases reply with
    | some ref => rfl
    | none =>
      cases embed with
      | none => rfl
      | some embed =>
        rcases embed with ⟨images⟩
        cases images with
        | none => rfl
        | some images =>
          exact (classifyImages_observed_world env did commit.RKey images.Images w []).1

/-- The calls of `handleCreatePost` on a record that decodes: none when the
record is a reply or has no image embed, a loop trace over its images
otherwise, with the outcome of the handler. -/
theorem callsOf_cases {σ E : Type} (env : PostEnv σ E) (did : String) (commit : Commit) (w : σ)
    (post : FeedPost) (hdec : env.Unmarshal commit.Record = .ok post) :
    (callsOf env did commit w = [] ∧ (post.Reply ≠ none ∨ ¬ post.hasImageEmbed)) ∨
    (LoopTrace did commit.RKey post.images (callsOf env did commit w)
        (handleCreatePost env did commit w).1 ∧
      post.Reply = none ∧ post.hasImageEmbed) := by
  have hdec2 : (observed env).Unmarshal commit.Record = .ok post := hdec
  rw [← handleCreatePost_observed env did commit w]
  unfold callsOf handleCreatePost
  simp only [hdec2]
  rcases post with ⟨reply, embed⟩
  cases reply with
  | some ref => exact Or.inl ⟨rfl, Or.inl (by simp)⟩
  | none =>
    cases embed with
    | none => exact Or.inl ⟨rfl, Or.inr (by simp [FeedPost.hasImageEmbed])⟩
    | some embed =>
      rcases embed with ⟨images⟩
      cases images with
      | none => exact Or.inl ⟨rfl, Or.inr (by simp [FeedPost.hasImageEmbed])⟩
      | some images =>
        refine Or.inr ⟨?_, rfl, ⟨_, _, rfl, rfl⟩⟩
        obtain ⟨t, ht, hl⟩ := classifyImages_observed_log env did commit.RKey images.Images w []
        simp only [Option.isNone_none, FeedPost.images]
        rw [ht]
        simpa using hl

/-- C8: for every create-post event whose record decodes, whatever the
classifier and the store do: the classifier is called only if the record has no
reply reference and has an image embed; a record with a reply reference causes
no call at all; and every store call comes directly after a classifier call on
one of the record's images that returned, without error, the label "bird" with
confidence above 0.85 (and it carries the event's did and record key). -/
theorem handleCreatePost_gate {σ E : Type} (env : PostEnv σ E) (did : String) (commit : Commit)
    (w : σ) (post : FeedPost) (hdec : env.Unmarshal commit.Record = .ok post) :
    ((∃ d img response err, Call.classified d img response err ∈ callsOf env did commit w) →
      post.Reply = none ∧ post.hasImageEmbed) ∧
    (post.Reply ≠ none → callsOf env did commit w = []) ∧
    (∀ d r u e, Call.stored d r u e ∈ callsOf env did commit w →
      d = did ∧ r = commit.RKey ∧
      ∃ img ∈ post.images, ∃ response,
        (response.Label = "bird" ∧ response.Confidence > 0.85) ∧
        [Call.classified did img response none, Call.stored d r u e]
          <:+: callsOf env did commit w) := by
  rcases callsOf_cases env did commit w post hdec with ⟨hnil, hwhy⟩ | ⟨htrace, hreply, hembed⟩
  · refine ⟨?_, fun _ => hnil, ?_⟩
    · rintro ⟨d, img, response, err, hmem⟩
      rw [hnil] at hmem
      simp at hmem
    · intro d r u e hmem
      rw [hnil] at hmem
      simp at hmem
  · refine ⟨fun _ => ⟨hreply, hembed⟩, fun hne => absurd hreply hne, ?_⟩
    intro d r u e hmem
    obtain ⟨h1, h2, -, img, himg, response, hacc, hin⟩ := htrace.stored_after_accept d r u e hmem
    exact ⟨h1, h2, img, himg, response, hacc, hin⟩

/-- The gate on a reply that embeds two images: no call is made. -/
theorem handleCreatePost_gate_witness :
    (sampleEnv none).Unmarshal (sampleCommit "reply").Record = .ok twoImageReply ∧
    callsOf (sampleEnv none) "did:plc:abc" (sampleCommit "reply") () = [] :=
  ⟨rfl,
   (handleCreatePost_gate (sampleEnv none) "did:plc:abc" (sampleCommit "reply") ()
      twoImageReply rfl).2.1 (by simp [twoImageReply])⟩

/-! ## The stopping rule of `handleCreatePost` -/

/-- C9, as stated, fails when the store fails: both images of the record are
accepted, the store call for the first one returns an error, and the second
image is submitted to the classifier after the first accepted one. -/
theorem handleCreatePost_store_error_counterexample :
    accepts { Confidence := 9 / 10, Label := "bird" } ∧
    callsOf (sampleEnv (some "db down")) "did:plc:abc" (sampleCommit "post") ()
      = [Call.classified "did:plc:abc" { Image := some { Ref := "bafy-one" } }
           { Confidence := 9 / 10, Label := "bird" } none,
         Call.stored "did:plc:abc" "r1" "https://bsky.app/profile/did:plc:abc/post/r1"
           (some "db down"),
         Call.classified "did:plc:abc" { Image := some { Ref := "bafy-two" } }
           { Confidence := 9 / 10, Label := "bird" } none,
         Call.stored "did:plc:abc" "r1" "https://bsky.app/profile/did:plc:abc/post/r1"
           (some "db down")] := by
  have hacc : accepts { Confidence := 9 / 10, Label := "bird" } := by
    unfold accepts
    exact ⟨rfl, by norm_num⟩
  refine ⟨hacc, ?_⟩
  simp [callsOf, handleCreatePost, observed, sampleEnv, sampleCommit, twoImagePost,
    classifyImages, hacc, postURLOf]

/-- C9 (amended): for every create-post event whose record decodes, whatever
the classifier and the store do.  The images submitted to the classifier are a
prefix of the record's images, in list order; an accepted image (label "bird",
confidence above 0.85) is followed at once by a store call; a store call that
succeeds is the last call of the event, so no image is submitted after it; and
at most one Post is persisted per event.  Evaluation starts with the first
image of an eligible record, and after a store call that returned an error, as
after a classification that failed or was not accepted, it continues with the
next image: when there is none the handler returns nil with no further call;
when the next image has its blob, it is submitted to the classifier as the very
next call; when it has no blob, the handler aborts there on the nil pointer with
no further call. -/
theorem handleCreatePost_stops {σ E : Type} (env : PostEnv σ E) (did : String) (commit : Commit)
    (w : σ) (post : FeedPost) (hdec : env.Unmarshal commit.Record = .ok post) :
    classifiedImages (callsOf env did commit w) <+: post.images ∧
    (∀ img response, Call.classified did img response none ∈ callsOf env did commit w →
      (response.Label = "bird" ∧ response.Confidence > 0.85) →
      ∃ e : Option E, [Call.classified did img response none,
        Call.stored did commit.RKey (postURLOf did commit.RKey) e]
          <:+: callsOf env did commit w) ∧
    (∀ d r u, Call.stored d r u none ∈ callsOf env did commit w →
      [Call.stored d r u (none : Option E)] <:+ callsOf env did commit w) ∧
    storedCount (callsOf env did commit w) ≤ 1 ∧
    (post.Reply = none → post.hasImageEmbed → ∀ first more, post.images = first :: more →
      (first.Image = none →
        callsOf env did commit w = [] ∧
        (handleCreatePost env did commit w).1 = .nilDereference) ∧
      (first.Image ≠ none → ∃ response err rest,
        callsOf env did commit w = Call.classified did first response err :: rest)) ∧
    (∀ pre c rest, callsOf env did commit w = pre ++ c :: rest →
      ((∃ d r u err, c = Call.stored d r u (some err)) ∨
        (∃ d img response err, c = Call.classified d img response (some err)) ∨
        (∃ d img response, c = Call.classified d img response none ∧
          ¬ (response.Label = "bird" ∧ response.Confidence > 0.85))) →
      (post.images[(classifiedImages (pre ++ [c])).length]? = none →
        rest = [] ∧ (handleCreatePost env did commit w).1 = .returned none) ∧
      (∀ next, post.images[(classifiedImages (pre ++ [c])).length]? = some next →
        (next.Image = none →
          rest = [] ∧ (handleCreatePost env did commit w).1 = .nilDereference) ∧
        (next.Image ≠ none → ∃ response err rest1,
          rest = Call.classified did next response err :: rest1))) := by
  rcases callsOf_cases env did commit w post hdec with ⟨hnil, hwhy⟩ | ⟨htrace, -, -⟩
  · rw [hnil]
    refine ⟨List.nil_prefix, ?_, ?_, by simp [storedCount], ?_, ?_⟩
    · intro img response hmem
      simp at hmem
    · intro d r u hmem
      simp at hmem
    · intro hreply hembed
      rcases hwhy with h | h
      · exact absurd hreply h
      · exact absurd hembed h
    · intro pre c rest ht
      simp at ht
  · refine ⟨htrace.classified_prefix,
      fun img response hmem hacc => htrace.accepted_goes_to_store img response hmem hacc,
      fun d r u hmem => htrace.persisted_last d r u hmem,
      htrace.storedCount_le_one, ?_, ?_⟩
    · intro _ _ first more himgs
      rw [himgs] at htrace
      exact htrace.head
    · intro pre c rest ht hc
      have hgo : c.goesOn := by
        rcases hc with ⟨d, r, u, err, rfl⟩ | ⟨d, img, response, err, rfl⟩ |
          ⟨d, img, response, rfl, hrej⟩
        · simp [Call.goesOn]
        · simp [Call.goesOn]
        · exact Or.inr hrej
      obtain ⟨remaining, hr, hl⟩ := htrace.after_goesOn pre c rest ht hgo
      have hget : post.images[(classifiedImages (pre ++ [c])).length]? = remaining[0]? := by
        rw [hr, List.getElem?_append_right (le_refl _), Nat.sub_self]
      rw [hget]
      cases remaining with
      | nil =>
        refine ⟨fun _ => hl.of_nil, ?_⟩
        intro next hnext
        simp at hnext
      | cons next0 more =>
        refine ⟨fun h => by simp at h, ?_⟩
        intro next hnext
        simp only [List.getElem?_cons_zero, Option.some.injEq] at hnext
        subst hnext
        exact hl.head

/-- The stopping rule on a record with two accepted images and a store that
succeeds: one Post at most. -/
theorem handleCreatePost_stops_witness :
    (sampleEnv none).Unmarshal (sampleCommit "post").Record = .ok twoImagePost ∧
    storedCount (callsOf (sampleEnv none) "did:plc:abc" (sampleCommit "post") ()) ≤ 1 :=
  ⟨rfl,
   (handleCreatePost_stops (sampleEnv none) "did:plc:abc" (sampleCommit "post") ()
      twoImagePost rfl).2.2.2.1⟩

/-- After a store error the handler aborts on a next image without its blob. -/
theorem handleCreatePost_blobless_aborts :
    handleCreatePost (sampleEnv (some "db down")) "did:plc:abc" (sampleCommit "blobless") ()
      = (.nilDereference, ()) := by
  have hacc : accepts { Confidence := 9 / 10, Label := "bird" } := by
    unfold accepts
    exact ⟨rfl, by norm_num⟩
  simp [handleCreatePost, sampleEnv, sampleCommit, blobLessPost, classifyImages, hacc]

/-! ## The result of `classify` -/

/-- Whenever the request is sent and the response status is not 200, `classify`
returns the zero response and a nil error. -/
theorem classify_status_not_ok {σ E Req Body : Type} (env : ClassifyEnv σ E Req Body)
    (did : String) (img : EmbedImages_Image) (blob : LexBlob) (w w1 : σ) (jsonBody : String)
    (req : Req) (resp : HttpResponse Body)
    (hb : img.Image = some blob)
    (hm : env.Marshal ("https://cdn.bsky.app/image/feed_fullsize/plain/" ++ did ++ "/"
      ++ blob.Ref ++ "@jpeg") = .ok jsonBody)
    (hr : env.NewRequest "POST" (env.classifierURL ++ "/selfie") jsonBody = .ok req)
    (hd : env.Do (env.HeaderSet req "Content-Type" "application/json") w = (.ok resp, w1))
    (hs : resp.StatusCode ≠ StatusOK) :
    classify env did img w = (.returned classifyResponse.zero none, w1) := by
  unfold classify
  simp only [hb, hm, hr, hd, hs, ne_eq, not_false_eq_true, if_true]

/-- An image without its blob aborts `classify` before any request. -/
theorem classify_nil_blob {σ E Req Body : Type} (env : ClassifyEnv σ E Req Body)
    (did : String) (w : σ) :
    classify env did { Image := none } w = (.nilDereference, w) := rfl

/-- C10 at the failing input: the classifier answers with HTTP status 500, and
`classify` returns the zero response with a nil error. -/
theorem classify_status_500 :
    classify (sampleClassifyEnv 500 "Internal Server Error") "did:plc:abc"
        { Image := some { Ref := "bafy-one" } } ()
      = (.returned classifyResponse.zero none, ()) :=
  classify_status_not_ok (sampleClassifyEnv 500 "Internal Server Error") "did:plc:abc"
    { Image := some { Ref := "bafy-one" } } { Ref := "bafy-one" } () () _ _ _ rfl rfl rfl rfl
    (by decide)

/-! ## The session refresh -/

/-- A tick whose refresh call fails leaves the refresh token in both fields. -/
theorem refreshTick_failed {σ E : Type} (ServerRefreshSession : RefreshCall σ E) (auth : AuthInfo)
    (w w1 : σ) (err : E)
    (h : ServerRefreshSession { auth with AccessJwt := auth.RefreshJwt } w = (.error err, w1)) :
    refreshTick ServerRefreshSession auth w
      = ({ AccessJwt := auth.RefreshJwt, RefreshJwt := auth.RefreshJwt }, w1) := by
  unfold refreshTick
  simp only [h]

/-- A tick whose refresh call succeeds replaces both tokens by the returned ones. -/
theorem refreshTick_succeeded {σ E : Type} (ServerRefreshSession : RefreshCall σ E)
    (auth : AuthInfo) (w w1 : σ) (out : ServerRefreshSession_Output)
    (h : ServerRefreshSession { auth with AccessJwt := auth.RefreshJwt } w = (.ok out, w1)) :
    refreshTick ServerRefreshSession auth w
      = ({ AccessJwt := out.AccessJwt, RefreshJwt := out.RefreshJwt }, w1) := by
  unfold refreshTick
  simp only [h]

/-- The sibling `refreshTokens` keeps the credentials when the refresh call fails. -/
theorem refreshTokens_failed {σ E : Type} (ServerRefreshSession : RefreshCall σ E)
    (auth : AuthInfo) (w w1 : σ) (err : E)
    (h : ServerRefreshSession auth w = (.error err, w1)) :
    refreshTokens ServerRefreshSession auth w = (some err, auth, w1) := by
  unfold refreshTokens
  simp only [h]

/-- C11 at the failing input: the credentials are ("access-1", "refresh-1") and
the refresh call fails; after the tick they are ("refresh-1", "refresh-1"),
which is not the pair before the tick. -/
theorem refreshTick_failed_loses_access_token :
    refreshTick (fun _ w => ((Except.error "ExpiredToken" :
        Except String ServerRefreshSession_Output), w))
      { AccessJwt := "access-1", RefreshJwt := "refresh-1" } ()
      = ({ AccessJwt := "refresh-1", RefreshJwt := "refresh-1" }, ()) ∧
    ({ AccessJwt := "refresh-1", RefreshJwt := "refresh-1" } : AuthInfo)
      ≠ { AccessJwt := "access-1", RefreshJwt := "refresh-1" } := by
  decide

/-! ## Check-then-insert -/

theorem postExists_eq_false {s : Store} {postRkey : String}
    (hno : ∀ p ∈ s.post, p.record ≠ postRkey) : postExists s postRkey = false := by
  unfold postExists
  rw [List.any_eq_false]
  intro p hp
  simpa using hno p hp

theorem postExists_eq_true {s : Store} {postRkey : String}
    (h : postExists s postRkey = true) : ∃ p ∈ s.post, p.record = postRkey := by
  unfold postExists at h
  rw [List.any_eq_true] at h
  obtain ⟨p, hp, heq⟩ := h
  exact ⟨p, hp, by simpa using heq⟩

/-- C12: for every store state, every driver behaviour and every (did, rkey,
targetRkey).  If no Post with record key targetRkey exists, `AddLike` and
`AddRepost` leave the store, hence all three tables, unchanged, and return nil
whenever the transaction begins and the existence query runs (an error of one
of these two steps is what they return otherwise).  In every case a call that
changes the store has found a Post with that key, returns nil, and has added
exactly the one row to its own table. -/
theorem AddLike_check_then_insert {E : Type} (f : Faults E) (now : Nat)
    (did rkey postRkey : String) (s : Store) :
    ((∀ p ∈ s.post, p.record ≠ postRkey) →
      (AddLike f now did rkey postRkey s).2 = s ∧
      (AddRepost f now did rkey postRkey s).2 = s ∧
      (f.Begin = none → f.QueryRow = none →
        (AddLike f now did rkey postRkey s).1 = none ∧
        (AddRepost f now did rkey postRkey s).1 = none)) ∧
    ((AddLike f now did rkey postRkey s).2 ≠ s →
      (∃ p ∈ s.post, p.record = postRkey) ∧
      AddLike f now did rkey postRkey s
        = (none, { s with post_like := s.post_like ++
            [{ did := did, record := rkey, post_rkey := postRkey, indexed_at := now }] })) ∧
    ((AddRepost f now did rkey postRkey s).2 ≠ s →
      (∃ p ∈ s.post, p.record = postRkey) ∧
      AddRepost f now did rkey postRkey s
        = (none, { s with post_repost := s.post_repost ++
            [{ did := did, record := rkey, post_rkey := postRkey, indexed_at := now }] })) := by
  obtain ⟨fBegin, fQueryRow, fExec, fCommit, fQuery, fScan⟩ := f
  refine ⟨?_, ?_, ?_⟩
  · intro hno
    have he := postExists_eq_false hno
    refine ⟨?_, ?_, ?_⟩
    · unfold AddLike
      cases fBegin <;> cases fQueryRow <;> simp [he]
    · unfold AddRepost
      cases fBegin <;> cases fQueryRow <;> simp [he]
    · intro hb hq
      simp only at hb hq
      subst hb hq
      unfold AddLike AddRepost
      simp [he]
  · intro hne
    unfold AddLike at hne ⊢
    cases he : postExists s postRkey
    · cases fBegin <;> cases fQueryRow <;> simp [he] at hne
    · refine ⟨postExists_eq_true he, ?_⟩
      cases fBegin <;> cases fQueryRow <;> cases fExec <;> cases fCommit <;>
        simp [he] at hne ⊢
  · intro hne
    unfold AddRepost at hne ⊢
    cases he : postExists s postRkey
    · cases fBegin <;> cases fQueryRow <;> simp [he] at hne
    · refine ⟨postExists_eq_true he, ?_⟩
      cases fBegin <;> cases fQueryRow <;> cases fExec <;> cases fCommit <;>
        simp [he] at hne ⊢

/-- A like that targets the absent record key "r9" over a store with the one
post "r1": nothing is inserted and nil is returned. -/
theorem AddLike_check_then_insert_witness :
    AddLike (Faults.none : Faults String) 7 "did:plc:xyz" "l1" "r9"
        { post := [{ did := "did:plc:abc", record := "r1",
                     uri := "at://did:plc:abc/app.bsky.feed.post/r1", indexed_at := 1 }],
          post_like := [], post_repost := [] }
      = (none,
        { post := [{ did := "did:plc:abc", record := "r1",
                     uri := "at://did:plc:abc/app.bsky.feed.post/r1", indexed_at := 1 }],
          post_like := [], post_repost := [] }) :=
  Prod.ext
    (((AddLike_check_then_insert (Faults.none : Faults String) 7 "did:plc:xyz" "l1" "r9"
        { post := [{ did := "did:plc:abc", record := "r1",
                     uri := "at://did:plc:abc/app.bsky.feed.post/r1", indexed_at := 1 }],
          post_like := [], post_repost := [] }).1 (by decide)).2.2 rfl rfl).1
    ((AddLike_check_then_insert (Faults.none : Faults String) 7 "did:plc:xyz" "l1" "r9"
        { post := [{ did := "did:plc:abc", record := "r1",
                     uri := "at://did:plc:abc/app.bsky.feed.post/r1", indexed_at := 1 }],
          post_like := [], post_repost := [] }).1 (by decide)).1

/-! ## The ranking of `MostPopularWithCursor` -/

/-- In a list of rows with distinct keys, the counts of the rows with a given
key add up to the count of the one row that has it. -/
theorem sum_filter_key (g : String → Nat) (k : String × String) (l : List PostRow)
    (hn : (l.map (fun p => (p.did, p.record))).Nodup)
    (hk : k ∈ l.map (fun p => (p.did, p.record))) :
    ((l.filter (fun p => (p.did, p.record) = k)).map (fun p => g p.record)).sum = g k.2 := by
  induction l with
  | nil => simp at hk
  | cons p rest ih =>
    rw [List.map_cons, List.nodup_cons] at hn
    by_cases hp : (p.did, p.record) = k
    · have hnone : rest.filter (fun q => (q.did, q.record) = k) = [] := by
        rw [List.filter_eq_nil_iff]
        intro q hq hqk
        apply hn.1
        rw [hp]
        exact List.mem_map.mpr ⟨q, hq, by simpa using hqk⟩
      rw [List.filter_cons_of_pos (by simpa using hp), hnone]
      simp [← hp]
    · rw [List.filter_cons_of_neg (by simpa using hp)]
      apply ih hn.2
      rw [List.map_cons, List.mem_cons] at hk
      rcases hk with hk | hk
      · exact absurd hk.symm hp
      · exact hk

theorem groupCount_eq_likeCount (s : Store) (hu : s.postKeysUnique) (k : String × String)
    (hk : k ∈ groupKeys s) : groupCount s k = likeCount s k.2 := by
  unfold groupKeys at hk
  rw [List.mem_dedup] at hk
  exact sum_filter_key (likeCount s) k s.post hu hk

theorem mostPopularRanking_perm (s : Store) : (mostPopularRanking s).Perm (groupKeys s) :=
  List.perm_insertionSort _ _

theorem mostPopularRanking_sorted (s : Store) :
    (mostPopularRanking s).Pairwise (fun a b => groupCount s b ≤ groupCount s a) := by
  haveI : IsTotal (String × String) (fun a b => groupCount s b ≤ groupCount s a) :=
    ⟨fun a b => le_total _ _⟩
  haveI : IsTrans (String × String) (fun a b => groupCount s b ≤ groupCount s a) :=
    ⟨fun a b c hab hbc => le_trans hbc hab⟩
  exact List.sorted_insertionSort _ _

/-- C13, as stated, fails: post "a" has one like and no repost, post "b" has no
like and two reposts; "a" precedes "b" in the ranking although its likes plus
reposts are fewer. -/
theorem mostPopularRanking_ignores_reposts_counterexample :
    mostPopularRanking sampleStore = [("did:plc:a", "a"), ("did:plc:b", "b")] ∧
    ¬ (likeCount sampleStore "a" + repostCount sampleStore "a"
        ≥ likeCount sampleStore "b" + repostCount sampleStore "b") := by
  decide

/-- C13 (amended): `MostPopularWithCursor` returns the posts ranked by
count(likes) descending; reposts are not counted.  For every store state whose
rows of `post` have distinct keys: the unpaginated result holds each post
once, if post A precedes post B in it then the number of likes that target A is
at least the number of likes that target B, and a call with a non-negative
limit and cursor on a driver without failure returns the URIs of the rows from
`cursor` on, `limit` of them at most. -/
theorem mostPopularRanking_by_likes {E : Type} (s : Store) (hu : s.postKeysUnique) :
    (mostPopularRanking s).Perm (groupKeys s) ∧
    (∀ a b : String × String, List.Sublist [a, b] (mostPopularRanking s) →
      likeCount s b.2 ≤ likeCount s a.2) ∧
    (∀ limit cursor : Int, 0 ≤ limit → 0 ≤ cursor →
      MostPopularWithCursor (Faults.none : Faults E) limit cursor s
        = .ok ((((mostPopularRanking s).drop cursor.toNat).take limit.toNat).map
            (fun r => atURI r.1 r.2))) := by
  refine ⟨mostPopularRanking_perm s, ?_, ?_⟩
  · intro a b hab
    have hsorted := List.pairwise_iff_forall_sublist.mp (mostPopularRanking_sorted s) hab
    have ha : a ∈ groupKeys s :=
      (mostPopularRanking_perm s).subset (hab.subset (List.mem_cons_self _ _))
    have hb : b ∈ groupKeys s :=
      (mostPopularRanking_perm s).subset
        (hab.subset (List.mem_cons_of_mem _ (List.mem_cons_self _ _)))
    rw [groupCount_eq_likeCount s hu a ha, groupCount_eq_likeCount s hu b hb] at hsorted
    exact hsorted
  · intro limit cursor hl hc
    unfold MostPopularWithCursor
    have hneg : ¬ (cursor < 0 ∨ limit < 0) := by omega
    simp only [Faults.none, hneg, if_false]
    split <;> simp_all

/-- The ranking of the sample store: "a" with its one like precedes "b". -/
theorem mostPopularRanking_by_likes_witness :
    sampleStore.postKeysUnique ∧ likeCount sampleStore "b" ≤ likeCount sampleStore "a" :=
  ⟨by decide,
   (mostPopularRanking_by_likes (E := String) sampleStore (by decide)).2.1
     ("did:plc:a", "a") ("did:plc:b", "b") (by decide)⟩

/-! ## Delete events for likes and reposts -/

/-- `handleDeleteLike` and `handleDeleteRepost` return nil and leave the world
as it is, whatever the store is: no method of the store is called. -/
theorem handleDelete_no_call {σ E : Type} (env : EdgeEnv σ E) (commit : Commit) (w : σ) :
    handleDeleteLike env commit w = (none, w) ∧ handleDeleteRepost env commit w = (none, w) :=
  ⟨rfl, rfl⟩

/-- The sibling `handleDeletePost` calls the store with the record key of the
event and returns its result. -/
theorem handleDeletePost_calls_store {E : Type} (subject : Option RepoStrongRef)
    (result : Option E) (commit : Commit) (calls : List StoreCall) :
    handleDeletePost (recordingStore subject result) commit calls
      = (result, calls ++ [.DeletePotentialBirdPost commit.RKey]) := by
  unfold handleDeletePost recordingStore
  cases result <;> rfl

/-- The statement of `DeleteLike` leaves no row with the given record key. -/
theorem DeleteLike_removes {E : Type} (rkey : String) (s : Store) :
    ∀ l ∈ (DeleteLike (Faults.none : Faults E) rkey s).2.post_like, l.record ≠ rkey := by
  intro l hl
  simp only [DeleteLike, Faults.none, List.mem_filter] at hl
  simpa using hl.2

/-- C14 at the failing input: the store holds the like "l1" and the repost
"p1".  On the delete events for them the handlers return nil, a recording store
sees no call, and the rows are still in the tables, whereas `DeleteLike("l1")`
and `DeleteRepost("p1")` would have removed them. -/
theorem handleDelete_keeps_rows :
    handleDeleteLike (recordingStore none (none : Option String))
        (sampleEdgeCommit "delete" "app.bsky.feed.like" "l1") [] = (none, []) ∧
    handleDeleteRepost (recordingStore none (none : Option String))
        (sampleEdgeCommit "delete" "app.bsky.feed.repost" "p1") [] = (none, []) ∧
    (handleDeleteLike (tableStore none)
        (sampleEdgeCommit "delete" "app.bsky.feed.like" "l1") sampleStore).2.post_like
      = [{ did := "did:plc:x", record := "l1", post_rkey := "a", indexed_at := 3 }] ∧
    (DeleteLike (Faults.none : Faults String) "l1" sampleStore).2.post_like = [] ∧
    (handleDeleteRepost (tableStore none)
        (sampleEdgeCommit "delete" "app.bsky.feed.repost" "p1") sampleStore).2.post_repost
      = [{ did := "did:plc:x", record := "p1", post_rkey := "b", indexed_at := 4 },
         { did := "did:plc:y", record := "p2", post_rkey := "b", indexed_at := 5 }] ∧
    (DeleteRepost (Faults.none : Faults String) "p1" sampleStore).2.post_repost
      = [{ did := "did:plc:y", record := "p2", post_rkey := "b", indexed_at := 5 }] := by
  decide

/-! ## Segment 4 of the subject URI -/

theorem splitSlash_no_slash (a : List Char) (h : '/' ∉ a) : splitSlash a = [a] := by
  induction a with
  | nil => rfl
  | cons c cs ih =>
    rw [List.mem_cons, not_or] at h
    unfold splitSlash
    rw [if_neg (fun hc => h.1 hc.symm), ih h.2]

theorem splitSlash_append (a rest : List Char) (h : '/' ∉ a) :
    splitSlash (a ++ '/' :: rest) = a :: splitSlash rest := by
  induction a with
  | nil =>
    rw [List.nil_append]
    conv_lhs => unfold splitSlash
    rw [if_pos rfl]
  | cons c cs ih =>
    rw [List.mem_cons, not_or] at h
    rw [List.cons_append]
    conv_lhs => unfold splitSlash
    rw [if_neg (fun hc => h.1 hc.symm), ih h.2]

/-- The segments of a subject URI `at://<did>/<collection>/<rkey>` whose three
parts hold no `/`: segment 4 is `<rkey>`. -/
theorem Split_subject_uri (did collection rkey : String)
    (hd : '/' ∉ did.data) (hc : '/' ∉ collection.data) (hr : '/' ∉ rkey.data) :
    Split ("at://" ++ did ++ "/" ++ collection ++ "/" ++ rkey)
      = ["at:", "", did, collection, rkey] := by
  have h1 : ("at://" ++ did ++ "/" ++ collection ++ "/" ++ rkey).data
      = ['a', 't', ':'] ++ '/' :: ([] ++ '/' :: (did.data ++ '/' :: (collection.data ++
          '/' :: rkey.data))) := by
    simp only [String.data_append]
    simp
  unfold Split
  rw [h1, splitSlash_append _ _ (by decide), splitSlash_append _ _ (by simp),
    splitSlash_append _ _ hd, splitSlash_append _ _ hc, splitSlash_no_slash _ hr]
  rfl

/-- On a well-formed subject URI the handlers hand exactly `<rkey>` to the
store and return its result. -/
theorem addBySegment4_subject_uri {σ E : Type} (add : String → σ → Option E × σ)
    (did collection rkey : String) (w : σ)
    (hd : '/' ∉ did.data) (hc : '/' ∉ collection.data) (hr : '/' ∉ rkey.data) :
    addBySegment4 add ("at://" ++ did ++ "/" ++ collection ++ "/" ++ rkey) w
      = (.returned (add rkey w).1, (add rkey w).2) := by
  unfold addBySegment4
  rw [Split_subject_uri did collection rkey hd hc hr]
  simp only [List.get?_eq_getElem?, List.getElem?_cons_succ, List.getElem?_cons_zero]
  rcases h : add rkey w with ⟨err, w1⟩
  cases err <;> rfl

/-- C15 at the failing input: the record decodes and its subject URI is
"at://did:plc:abc", which has three segments; `handleCreateLike` and
`handleCreateRepost` abort on the index 4 out of range, and the store is not
called. -/
theorem handleCreate_short_uri_panics :
    Split "at://did:plc:abc" = ["at:", "", "did:plc:abc"] ∧
    handleCreateLike
        (recordingStore (some { Cid := "bafy-one", Uri := "at://did:plc:abc" })
          (none : Option String))
        (sampleEdgeCommit "create" "app.bsky.feed.like" "l1") []
      = (.indexOutOfRange 4 3, []) ∧
    handleCreateRepost
        (recordingStore (some { Cid := "bafy-one", Uri := "at://did:plc:abc" })
          (none : Option String))
        (sampleEdgeCommit "create" "app.bsky.feed.repost" "p1") []
      = (.indexOutOfRange 4 3, []) := by
  decide

/-! ## `GetPage` over the storage of `db.go` -/

/-- A query that succeeds returns the URIs of the rows `OFFSET cursor LIMIT limit`
of its ordered result list. -/
theorem FeedQuery.run_ok {E : Type} (q : FeedQuery) (f : Faults E) (s : Store)
    (limit cursor : Int) (tmr : List String) (h : q.run f s limit cursor = .ok tmr) :
    tmr = (pageRows (q.ranking s) limit cursor).map (fun r => atURI r.1 r.2) := by
  obtain ⟨fBegin, fQueryRow, fExec, fCommit, fQuery, fScan⟩ := f
  cases q <;>
    simp only [FeedQuery.run, MostRecentWithCursor, MostPopularWithCursor, FeedQuery.ranking,
      pageRows] at h ⊢ <;>
    cases fQuery <;> simp only at h <;>
    first
      | exact absurd h (fun h0 => Except.noConfusion h0)
      | (split at h
         · exact absurd h (fun h0 => Except.noConfusion h0)
         · simp only [Except.ok.injEq] at h
           exact h.symm)

theorem ranking_length_le (q : FeedQuery) (s : Store) : (q.ranking s).length ≤ s.post.length := by
  cases q
  · simp [FeedQuery.ranking, mostRecentRanking, List.length_insertionSort]
  · have h1 : (mostPopularRanking s).length = (groupKeys s).length :=
      (mostPopularRanking_perm s).length_eq
    have h2 : (groupKeys s).length ≤ (s.post.map (fun p => (p.did, p.record))).length :=
      (List.dedup_sublist _).length_le
    simp only [FeedQuery.ranking, h1]
    simpa using h2

theorem pageRows_length (ranking : List (String × String)) (limit offset : Int) :
    offset + ((pageRows ranking limit offset).length : Int) ≤ max offset ranking.length := by
  unfold pageRows
  split_ifs with h
  · simp
  · simp only [List.length_take, List.length_drop]
    omega

/-- Over a table of at most `2^63 - 1` rows the offset plus the number of rows a
query returns stays within `int64`. -/
theorem storage_rows_within {E : Type} (q : FeedQuery) (f : Faults E) (s : Store)
    (limit o : Int) (tmr : List String)
    (hrows : (s.post.length : Int) ≤ maxInt64) (ho : o ≤ maxInt64)
    (h : q.run f s limit o = .ok tmr) : o + (tmr.length : Int) ≤ maxInt64 := by
  rw [q.run_ok f s limit o tmr h, List.length_map]
  have h1 := pageRows_length (q.ranking s) limit o
  have h2 := ranking_length_le q s
  omega

theorem GetPage_storage_within {E : Type} (q : FeedQuery) (f : Faults E) (s : Store)
    (limit o : Int) (cursor : String) (tmr : List String)
    (hrows : (s.post.length : Int) ≤ maxInt64)
    (hcur : parseCursor cursor = .ok o)
    (hdb : q.run f s (min limit 30) o = .ok tmr) :
    o + ((GetPage (storageFunc q f) limit cursor s).1.posts.length : Int) ≤ maxInt64 := by
  have hdb2 : storageFunc q f (min limit 30) o s = (.ok tmr, s) := by
    simp only [storageFunc, hdb]
  rw [GetPage_ok (storageFunc q f) limit o cursor s s tmr hcur hdb2]
  have h1 := storage_rows_within q f s (min limit 30) o tmr hrows (parseCursor_range hcur).2 hdb
  simp only [List.length_map, List.length_take]
  omega

theorem pageRows_length_le (ranking : List (String × String)) (limit offset : Int) :
    (pageRows ranking limit offset).length ≤ limit.toNat := by
  unfold pageRows
  split_ifs with h
  · simp
  · simp only [List.length_take]
    exact min_le_left _ _

/-- The page of a successful call over the storage of `db.go` holds the URIs of
the rows `OFFSET o LIMIT min(limit, 30)` of the ordered result list. -/
theorem GetPage_storage_uris {E : Type} (q : FeedQuery) (f : Faults E) (s : Store)
    (limit o : Int) (cursor : String) (tmr : List String)
    (hcur : parseCursor cursor = .ok o)
    (hdb : q.run f s (min limit 30) o = .ok tmr) :
    uris (GetPage (storageFunc q f) limit cursor s).1.posts
      = (pageRows (q.ranking s) (min limit 30) o).map (fun r => atURI r.1 r.2) := by
  have hdb2 : storageFunc q f (min limit 30) o s = (.ok tmr, s) := by
    simp only [storageFunc, hdb]
  rw [GetPage_ok (storageFunc q f) limit o cursor s s tmr hcur hdb2]
  simp only [uris_map_mk]
  rw [q.run_ok f s (min limit 30) o tmr hdb]
  apply List.take_of_length_le
  rw [List.length_map]
  exact pageRows_length_le _ _ _

/-- C2: for every successful `GetPage` call over a storage method of `db.go`
(either query, every driver behaviour, every table of at most `2^63 - 1` rows),
with parsed offset `o` and `n` returned posts: a next cursor is returned if and
only if `o + n < 210`; when it is returned it is the decimal string of `o + n`,
and when `o + n >= 210` the returned cursor is absent. -/
theorem GetPage_storage_nextCursor {E : Type} (q : FeedQuery) (f : Faults E) (s : Store)
    (limit o : Int) (cursor : String) (tmr : List String)
    (hrows : (s.post.length : Int) ≤ maxInt64)
    (hcur : parseCursor cursor = .ok o)
    (hdb : q.run f s (min limit 30) o = .ok tmr) :
    (GetPage (storageFunc q f) limit cursor s).1.err = none ∧
    ((GetPage (storageFunc q f) limit cursor s).1.newCursor.isSome = true ↔
      o + ((GetPage (storageFunc q f) limit cursor s).1.posts.length : Int) < 210) ∧
    (o + ((GetPage (storageFunc q f) limit cursor s).1.posts.length : Int) < 210 →
      (GetPage (storageFunc q f) limit cursor s).1.newCursor
        = some (FormatInt
            (o + ((GetPage (storageFunc q f) limit cursor s).1.posts.length : Int)))) ∧
    (210 ≤ o + ((GetPage (storageFunc q f) limit cursor s).1.posts.length : Int) →
      (GetPage (storageFunc q f) limit cursor s).1.newCursor = none) := by
  have hdb2 : storageFunc q f (min limit 30) o s = (.ok tmr, s) := by
    simp only [storageFunc, hdb]
  have hno := GetPage_storage_within q f s limit o cursor tmr hrows hcur hdb
  have hn := GetPage_nextCursor (storageFunc q f) limit o cursor s s tmr hcur hdb2 hno
  have herr : (GetPage (storageFunc q f) limit cursor s).1.err = none := by
    rw [GetPage_ok (storageFunc q f) limit o cursor s s tmr hcur hdb2]
  refine ⟨herr, ?_, ?_, ?_⟩
  · rw [hn]
    split_ifs with h <;> simp [h]
  · intro h
    rw [hn, if_pos h]
  · intro h
    rw [hn, if_neg (by omega)]

/-- The cursor rule on the sample store: the empty cursor and two rows give the
next cursor "2". -/
theorem GetPage_storage_nextCursor_witness :
    FeedQuery.MostPopular.run (Faults.none : Faults String) sampleStore (min 10 30) 0
      = .ok ["at://did:plc:a/app.bsky.feed.post/a", "at://did:plc:b/app.bsky.feed.post/b"] ∧
    (GetPage (storageFunc .MostPopular (Faults.none : Faults String)) 10 "" sampleStore).1.newCursor
      = some "2" :=
  ⟨by decide,
   (GetPage_storage_nextCursor .MostPopular (Faults.none : Faults String) sampleStore 10 0 ""
      ["at://did:plc:a/app.bsky.feed.post/a", "at://did:plc:b/app.bsky.feed.post/b"]
      (by decide) (by decide) (by decide)).2.2.1 (by decide)⟩

/-- C3: for every cursor that `GetPage` accepts whose offset is at least 210,
and whatever a storage method of `db.go` returns there (either query, every
driver behaviour, every table of at most `2^63 - 1` rows, however many rows
remain), a successful `GetPage` returns no next cursor. -/
theorem GetPage_storage_ceiling {E : Type} (q : FeedQuery) (f : Faults E) (s : Store)
    (limit o : Int) (cursor : String) (tmr : List String)
    (hrows : (s.post.length : Int) ≤ maxInt64)
    (hcur : parseCursor cursor = .ok o)
    (hdb : q.run f s (min limit 30) o = .ok tmr)
    (h210 : 210 ≤ o) :
    (GetPage (storageFunc q f) limit cursor s).1.err = none ∧
    (GetPage (storageFunc q f) limit cursor s).1.newCursor = none := by
  have hdb2 : storageFunc q f (min limit 30) o s = (.ok tmr, s) := by
    simp only [storageFunc, hdb]
  have hno := GetPage_storage_within q f s limit o cursor tmr hrows hcur hdb
  refine ⟨?_, GetPage_no_cursor_from_210 (storageFunc q f) limit o cursor s s tmr hcur hdb2 hno h210⟩
  rw [GetPage_ok (storageFunc q f) limit o cursor s s tmr hcur hdb2]

/-- The ceiling on the sample store at cursor "210": no next cursor. -/
theorem GetPage_storage_ceiling_witness :
    parseCursor "210" = .ok 210 ∧
    (GetPage (storageFunc .MostRecent (Faults.none : Faults String)) 30 "210" sampleStore).1.newCursor
      = none :=
  ⟨by decide,
   (GetPage_storage_ceiling .MostRecent (Faults.none : Faults String) sampleStore 30 210 "210" []
      (by decide) (by decide) (by decide) (by decide)).2⟩

/-- C4: cursor round trip over a storage method of `db.go` (either query, every
driver behaviour, every table of at most `2^63 - 1` rows).  For every
successful `GetPage` call with offset `o` that returns `n` posts and a next
cursor `c`: `c` is accepted and denotes `o + n`; a second call with cursor `c`
queries the storage once, at offset exactly `o + n`; and over the fixed ordered
result list the first page holds the rows `OFFSET o` and the second page, when
its query succeeds, the rows `OFFSET o + n`, so that no row between them is
skipped and none is repeated. -/
theorem GetPage_storage_round_trip {E : Type} (q : FeedQuery) (f : Faults E) (s : Store)
    (limit o : Int) (cursor c : String) (tmr : List String)
    (hrows : (s.post.length : Int) ≤ maxInt64)
    (hcur : parseCursor cursor = .ok o)
    (hdb : q.run f s (min limit 30) o = .ok tmr)
    (hc : (GetPage (storageFunc q f) limit cursor s).1.newCursor = some c) :
    parseCursor c
      = .ok (o + ((GetPage (storageFunc q f) limit cursor s).1.posts.length : Int)) ∧
    (∀ (f2 : Faults E) (limit2 : Int) (calls : List (Int × Int)),
      (GetPage (recording (q.run f2 s)) limit2 c calls).2
        = calls ++ [(min limit2 30,
            o + ((GetPage (storageFunc q f) limit cursor s).1.posts.length : Int))]) ∧
    uris (GetPage (storageFunc q f) limit cursor s).1.posts
      = (pageRows (q.ranking s) (min limit 30) o).map (fun r => atURI r.1 r.2) ∧
    ((GetPage (storageFunc q f) limit cursor s).1.posts.length
      = (pageRows (q.ranking s) (min limit 30) o).length) ∧
    (∀ (f2 : Faults E) (limit2 : Int) (tmr2 : List String),
      q.run f2 s (min limit2 30)
          (o + ((GetPage (storageFunc q f) limit cursor s).1.posts.length : Int)) = .ok tmr2 →
      uris (GetPage (storageFunc q f2) limit2 c s).1.posts
        = (pageRows (q.ranking s) (min limit2 30)
            (o + ((GetPage (storageFunc q f) limit cursor s).1.posts.length : Int))).map
              (fun r => atURI r.1 r.2)) := by
  have hdb2 : storageFunc q f (min limit 30) o s = (.ok tmr, s) := by
    simp only [storageFunc, hdb]
  have hno := GetPage_storage_within q f s limit o cursor tmr hrows hcur hdb
  obtain ⟨hparse, -⟩ :=
    GetPage_resume (E := E) (storageFunc q f) limit o cursor c s s tmr hcur hdb2 hno hc
  have huris := GetPage_storage_uris q f s limit o cursor tmr hcur hdb
  refine ⟨hparse, ?_, huris, ?_, ?_⟩
  · intro f2 limit2 calls
    exact GetPage_calls (q.run f2 s) limit2 _ c calls hparse
  · have hlen := congrArg List.length huris
    simpa [uris] using hlen
  · intro f2 limit2 tmr2 hdb3
    exact GetPage_storage_uris q f2 s limit2 _ c tmr2 hparse hdb3

/-- The round trip on the sample store with limit 1: the first page holds post
"a" and returns the cursor "1"; the second call is made at offset 1. -/
theorem GetPage_storage_round_trip_witness :
    (GetPage (storageFunc .MostPopular (Faults.none : Faults String)) 1 "" sampleStore).1
      = { posts := [{ Post := "at://did:plc:a/app.bsky.feed.post/a" }],
          newCursor := some "1", err := none } ∧
    parseCursor "1"
      = .ok (0 + ((GetPage (storageFunc .MostPopular (Faults.none : Faults String)) 1 ""
          sampleStore).1.posts.length : Int)) :=
  ⟨by decide,
   (GetPage_storage_round_trip .MostPopular (Faults.none : Faults String) sampleStore 1 0 "" "1"
      ["at://did:plc:a/app.bsky.feed.post/a"]
      (by decide) (by decide) (by decide) (by decide)).1⟩

end FeedGen
